import Mathlib

/-!
Shallow embedding of the EOS `topology_plugin`
(`src/plugins/topology_plugin/topology_plugin.cpp`).

The plugin keeps three tables (`nodes`, `links`, `producers`), all C++
`flat_map`s keyed by integer/hash ids resp. account names.  Here every
table is an association list `List (Nat × _)` (resp. `List (String × _)`
for producers); `lookupM` finds the first binding, `insertNewM` models
`emplace` (insert only if the key is absent), `setM` models
`operator[] = v` (overwrite-or-insert), `ensureM` models a bare
`operator[]` read (which default-inserts), and `eraseM` models `erase`.
A node's `links` member is a C++ `std::set<link_id>`, iterated in
ascending order, embedded as a list kept ascending by `insertSorted`.

Machine integers: ids (`node_id`, `link_id`) are modelled as `Nat`;
`block_count` is a `uint16_t`, so its increment is taken mod 2^16;
route lengths are `int16_t`, modelled as `Int` (the recursion adds at
most one per hop, so the int16 range is never exceeded on the graphs
considered here).  `account_name` and `block_id_type` are opaque to the
plugin and modelled as `String` and `Nat`.

The cryptographic hashes (`fc::sha256` in `gen_long_id`,
`std::hash<string>` in the link `gen_id`) are not re-implemented:
every definition that needs one takes the hash as an explicit function
argument `h : String → Nat`, and theorems quantify over it.
-/

namespace Topology

/-- First-match lookup in an association list (C++ `flat_map::find`). -/
def lookupM {κ : Type} [DecidableEq κ] {α : Type} (k : κ) : List (κ × α) → Option α
  | [] => none
  | e :: t => if e.1 = k then some e.2 else lookupM k t

/-- `emplace`: insert only when the key is absent. -/
def insertNewM {κ : Type} [DecidableEq κ] {α : Type} (k : κ) (v : α) (l : List (κ × α)) :
    List (κ × α) :=
  match lookupM k l with
  | some _ => l
  | none => (k, v) :: l

/-- Replace the value at an existing key, leaving other entries alone. -/
def modifyM {κ : Type} [DecidableEq κ] {α : Type} (k : κ) (f : α → α) (l : List (κ × α)) :
    List (κ × α) :=
  l.map (fun e => if e.1 = k then (k, f e.2) else e)

/-- `operator[] = v`: overwrite if present, insert otherwise. -/
def setM {κ : Type} [DecidableEq κ] {α : Type} (k : κ) (v : α) (l : List (κ × α)) :
    List (κ × α) :=
  match lookupM k l with
  | some _ => modifyM k (fun _ => v) l
  | none => (k, v) :: l

/-- A bare `operator[]` read: default-insert the key if absent. -/
def ensureM {κ : Type} [DecidableEq κ] {α : Type} (d : α) (k : κ) (l : List (κ × α)) :
    List (κ × α) :=
  match lookupM k l with
  | some _ => l
  | none => (k, d) :: l

/-- `flat_map::erase`. -/
def eraseM {κ : Type} [DecidableEq κ] {α : Type} (k : κ) (l : List (κ × α)) :
    List (κ × α) :=
  l.filter (fun e => !(decide (e.1 = k)))

/-- `std::set<link_id>::insert`, keeping the ascending iteration order. -/
def insertSorted (k : Nat) : List Nat → List Nat
  | [] => [k]
  | a :: t => if k < a then k :: a :: t else if k = a then a :: t else a :: insertSorted k t

/-- `link_role` (header enum; order as in `link_role_str`). -/
inductive LinkRole
  | blocks | transactions | control | combined
deriving DecidableEq

/-- `node_role` (header enum; order as in `node_role_str`). -/
inductive NodeRole
  | producer | backup | api | full | gateway | special
deriving DecidableEq

def link_role_str : LinkRole → String
  | .blocks => "blocks"
  | .transactions => "transactions"
  | .control => "control"
  | .combined => "combined"

/-- An enum streamed to an `ostream` prints its underlying value. -/
def nodeRoleVal : NodeRole → Nat
  | .producer => 0
  | .backup => 1
  | .api => 2
  | .full => 3
  | .gateway => 4
  | .special => 5

/-- `node_descriptor` (fields per the spec and their uses in the source). -/
structure NodeDescriptor where
  my_id : Nat
  location : String
  role : NodeRole
  version : String
  producers : List String
  status : Nat
deriving DecidableEq

/-- `link_descriptor` (fields per the spec and their uses in the source). -/
structure LinkDescriptor where
  my_id : Nat
  active : Nat
  passive : Nat
  role : LinkRole
deriving DecidableEq

/-- `route_descriptor`; the constructor sets `length = -1`, `path = 0`. -/
structure RouteDesc where
  length : Int
  path : Nat
deriving DecidableEq

def defaultRoute : RouteDesc := ⟨-1, 0⟩

/-- `topo_node`: descriptor, incident-link set, per-destination route cache. -/
structure TopoNode where
  info : NodeDescriptor
  links : List Nat
  routes : List (Nat × RouteDesc)
deriving DecidableEq

/-- `topo_link`: descriptor and the closure counter (metric bundles are an
external collaborator per the spec and are not modelled). -/
structure TopoLink where
  info : LinkDescriptor
  closures : Nat
deriving DecidableEq

/-- `fork_descriptor`. -/
structure ForkDescriptor where
  from_link : Nat
  fork_base : Nat
  depth : Nat
  deficit : Nat
  overage : Nat
deriving DecidableEq

/-- `topo_producer`. -/
structure TopoProducer where
  id : String
  current : ForkDescriptor
  forks : List ForkDescriptor
deriving DecidableEq

def defaultNodeDesc : NodeDescriptor := ⟨0, "", .producer, "", [], 0⟩

def defaultTopoNode : TopoNode := ⟨defaultNodeDesc, [], []⟩

def defaultLinkDesc : LinkDescriptor := ⟨0, 0, 0, .blocks⟩

def defaultTopoLink : TopoLink := ⟨defaultLinkDesc, 0⟩

def defaultFork : ForkDescriptor := ⟨0, 0, 0, 0, 0⟩

def defaultProducer : TopoProducer := ⟨"", defaultFork, []⟩

/-- The mutable state of `topology_plugin_impl` (the fields the core
operations read or write). -/
structure State where
  nodes : List (Nat × TopoNode)
  links : List (Nat × TopoLink)
  producers : List (String × TopoProducer)
  max_produced : Nat
  block_count : Nat
  prev_producer : String
  local_node_id : Nat
deriving DecidableEq

/-- The starting state: empty tables, `max_produced = 12`, `block_count = 0`. -/
def initState : State :=
  { nodes := [], links := [], producers := [], max_produced := 12
    block_count := 0, prev_producer := "", local_node_id := 0 }

/-! ## Identity generation (`gen_long_id`, `make_node_id`, `gen_id`) -/

/-- The canonical byte string hashed by `gen_long_id`:
`infostrm << desc.location << desc.role << desc.version` followed by every
hosted producer name. -/
def serializeNode (nd : NodeDescriptor) : String :=
  nd.location ++ toString (nodeRoleVal nd.role) ++ nd.version ++ String.join nd.producers

/-- `gen_long_id`, with the sha256 digest abstracted as `h` (digest read as a
little-endian natural number). -/
def gen_long_id (h : String → Nat) (nd : NodeDescriptor) : Nat :=
  h (serializeNode nd)

/-- `make_node_id`: the first byte (`data()[0]`) of the digest. -/
def make_node_id (longId : Nat) : Nat :=
  longId % 256

/-- `gen_id` for nodes. -/
def gen_id_node (h : String → Nat) (nd : NodeDescriptor) : Nat :=
  make_node_id (gen_long_id h nd)

/-- The string hashed by the link `gen_id`:
`infostrm << desc.active << desc.passive << link_role_str(desc.role)`. -/
def serializeLink (ld : LinkDescriptor) : String :=
  toString ld.active ++ toString ld.passive ++ link_role_str ld.role

/-- `gen_id` for links, with `std::hash<string>` abstracted as `h`. -/
def gen_id_link (h : String → Nat) (ld : LinkDescriptor) : Nat :=
  h (serializeLink ld)

/-! ## Graph mutation (`add_node`, `drop_node`, `add_link`, `drop_link`,
`update_map`) -/

/-- `topo_node(node_descriptor&)`: stores the descriptor, empty link set and
route cache. -/
def mkTopoNode (nd : NodeDescriptor) : TopoNode := ⟨nd, [], []⟩

/-- `add_node`: assign an id if the descriptor has none, then insert a fresh
`topo_node` only if the id is new. -/
def add_node (h : String → Nat) (nd : NodeDescriptor) (s : State) : State :=
  let nd' := if nd.my_id = 0 then { nd with my_id := gen_id_node h nd } else nd
  { s with nodes := insertNewM nd'.my_id (mkTopoNode nd') s.nodes }

/-- `drop_node`: erase the table entry outright. -/
def drop_node (id : Nat) (s : State) : State :=
  { s with nodes := eraseM id s.nodes }

/-- Register a link id into one endpoint's link set, if that node exists
(the source logs and continues when it does not). -/
def registerLink (endp lid : Nat) (s : State) : State :=
  match lookupM endp s.nodes with
  | some _ => { s with nodes := modifyM endp (fun n => { n with links := insertSorted lid n.links }) s.nodes }
  | none => s

/-- `add_link`: compute the id, register it into both endpoints' link sets,
then `emplace` the record (a no-op if the id already exists). -/
def add_link (hL : String → Nat) (ld : LinkDescriptor) (s : State) : State :=
  let id := gen_id_link hL ld
  let ld' := { ld with my_id := id }
  let s1 := registerLink ld'.active id s
  let s2 := registerLink ld'.passive id s1
  { s2 with links := insertNewM id ⟨ld', 0⟩ s2.links }

/-- `drop_link`: `links[id].closures++` — `operator[]` default-inserts a
fresh record when the id is absent; the record is never erased.  `closures`
is a `uint32_t`, so the increment wraps at 2^32. -/
def drop_link (id : Nat) (s : State) : State :=
  let cur := (lookupM id s.links).getD defaultTopoLink
  { s with links := setM id { cur with closures := (cur.closures + 1) % 4294967296 } s.links }

/-- `map_update` payload. -/
structure MapUpdate where
  add_nodes : List NodeDescriptor
  add_links : List LinkDescriptor
  drop_nodes : List Nat
  drop_links : List Nat
deriving DecidableEq

/-- `update_map`: node additions, then link additions, then node drops, then
link drops. -/
def update_map (h hL : String → Nat) (mu : MapUpdate) (s : State) : State :=
  let s1 := mu.add_nodes.foldl (fun t nd => add_node h nd t) s
  let s2 := mu.add_links.foldl (fun t ld => add_link hL ld t) s1
  let s3 := mu.drop_nodes.foldl (fun t id => drop_node id t) s2
  mu.drop_links.foldl (fun t id => drop_link id t) s3

/-! ## Deviation detector (`on_block_recv`) -/

/-- `producers[p]` followed by `.forks.emplace_back(fd)`
(`operator[]` default-inserts the producer entry). -/
def pushFork (p : String) (fd : ForkDescriptor) (s : State) : State :=
  let cur := (lookupM p s.producers).getD defaultProducer
  { s with producers := setM p { cur with forks := cur.forks ++ [fd] } s.producers }

/-- The under-quota hand-off branch of `on_block_recv`: append the deficit
record `{src, blk, block_count, deficit, 0}` to the outgoing head producer's
history, then flush a still-open record of `prev_producer` into its history
when one exists.  The bare `producers[prev_producer]` read default-inserts
that entry; `forks.empty()` in the source is a read with a discarded result;
`prev_producer` is only reassigned inside the inner branch. -/
def deficit_step (src blk : Nat) (head : String) (s : State) : State :=
  let deficit := s.max_produced - s.block_count
  let s' := pushFork head ⟨src, blk, s.block_count, deficit, 0⟩ s
  let prevEntry := (lookupM s'.prev_producer s'.producers).getD defaultProducer
  let s'' := { s' with producers := setM s'.prev_producer prevEntry s'.producers }
  if prevEntry.current.from_link ≠ 0 then
    { s'' with producers := setM s''.prev_producer
                 { prevEntry with
                    forks := prevEntry.forks ++ [prevEntry.current],
                    current := { prevEntry.current with from_link := 0 } } s''.producers,
               prev_producer := head }
  else s''

/-- `on_block_recv` body.  The chain-supplied head and pending producer are
passed as arguments (`cc.head_block_producer()`, `cc.pending_block_producer()`),
`sbp` is the new block's producer.  The first branch counts and only logs any
overage; the second runs `deficit_step` when the count is under quota and
resets `block_count` to 1; the third branch (block from the superseded
producer) only logs. -/
def on_block_recv (src blk : Nat) (sbp head pend : String) (s : State) : State :=
  if sbp = head then
    { s with block_count := (s.block_count + 1) % 65536 }
  else if sbp = pend then
    let s1 := if s.block_count < s.max_produced then deficit_step src blk head s else s
    { s1 with block_count := 1 }
  else s

/-- The deviation history of producer `p` as read through the table. -/
def forksOf (s : State) (p : String) : List ForkDescriptor :=
  ((lookupM p s.producers).getD defaultProducer).forks

/-! ## Routing engine (`find_route_i`, `find_route`)

`find_route_i` takes the visited set by reference (`set<node_id>& seen`) and
a reference into the node table; writes to `from.routes` and the phantom
entries created by `nodes[peer]` land in the table, so the embedding threads
the whole `State` and returns the updated `seen` as well.  The C++ recursion
terminates because `seen` grows on every recursive call; the embedding makes
that explicit with a fuel argument (theorems either hold for every fuel or
use a fuel that is visibly large enough for the concrete graph). -/

/-- The far endpoint of a link as `find_route_i` computes it:
`l.info.active == from.info.my_id ? l.info.passive : l.info.active`. -/
def peerOf (ld : LinkDescriptor) (myId : Nat) : Nat :=
  if ld.active = myId then ld.passive else ld.active

/-- `nodes[id]`: the entry, default-inserting a value-initialized
`topo_node` when the id is absent. -/
def getNodeD (id : Nat) (s : State) : TopoNode × State :=
  match lookupM id s.nodes with
  | some n => (n, s)
  | none => (defaultTopoNode, { s with nodes := (id, defaultTopoNode) :: s.nodes })

/-- `from.routes[dst]`: read the cache entry of node `nid` for destination
`dst`, default-inserting `route_descriptor()` when absent. -/
def getRouteD (nid dst : Nat) (s : State) : RouteDesc × State :=
  match lookupM nid s.nodes with
  | some n =>
    ((lookupM dst n.routes).getD defaultRoute,
     { s with nodes := modifyM nid (fun m => { m with routes := ensureM defaultRoute dst m.routes }) s.nodes })
  | none => (defaultRoute, s)

/-- `from.routes[dst] = rd`. -/
def setRoute (nid dst : Nat) (rd : RouteDesc) (s : State) : State :=
  { s with nodes := modifyM nid (fun m => { m with routes := setM dst rd m.routes }) s.nodes }

/-- The loop of `find_route_i` over the incident-link set, with the recursive
call abstracted as `rec`.  Returns `some r` on the early one-hop return,
otherwise `none` together with the final `best`. -/
def frLoop (rec : List Nat → Nat → Nat → State → Int × List Nat × State)
    (dst fromId myId : Nat) :
    List Nat → RouteDesc → List Nat → State → Option Int × RouteDesc × List Nat × State
  | [], best, seen, s => (none, best, seen, s)
  | lid :: rest, best, seen, s =>
    match lookupM lid s.links with
    | none => frLoop rec dst fromId myId rest best seen s
    | some l =>
      let peer := peerOf l.info myId
      if peer = dst then
        (some 1, ⟨1, lid⟩, seen, setRoute fromId dst ⟨1, lid⟩ s)
      else if peer ∈ seen then
        frLoop rec dst fromId myId rest best seen s
      else
        let seen1 := peer :: seen
        let (n, s1) := getNodeD peer s
        let _ := n
        let (res, seen2, s2) := rec seen1 dst peer s1
        if res = -1 then
          frLoop rec dst fromId myId rest best seen2 s2
        else
          let res' := res + 1
          let best' := if res' < best.length ∨ best.length < 1 then ⟨res', lid⟩ else best
          frLoop rec dst fromId myId rest best' seen2 s2

/-- `find_route_i`: consult the cache (an entry with `path != 0` is returned
as-is), otherwise walk the incident links, recursing into unvisited peers and
keeping the minimum extended length, then memoize `best`. -/
def find_route_i : Nat → List Nat → Nat → Nat → State → Int × List Nat × State
  | 0, seen, _, _, s => (-1, seen, s)
  | fuel + 1, seen, dst, fromId, s =>
    let (n, s0) := getNodeD fromId s
    let (best0, s1) := getRouteD fromId dst s0
    if best0.path ≠ 0 then (best0.length, seen, s1)
    else
      match frLoop (find_route_i fuel) dst fromId n.info.my_id n.links best0 seen s1 with
      | (some r, _, seen', s') => (r, seen', s')
      | (none, best, seen', s') => (best.length, seen', setRoute fromId dst best s')

/-- `find_route`: `-1` when either endpoint is missing from the node table;
`from == dst` is cached as `{0, dst}` and returns 0; otherwise run the
traversal with `seen = {from}`. -/
def find_route (fuel fromId dst : Nat) (s : State) : Int × State :=
  if (lookupM dst s.nodes).isNone then (-1, s)
  else if (lookupM fromId s.nodes).isNone then (-1, s)
  else if dst = fromId then
    (0, setRoute fromId dst ⟨0, dst⟩ s)
  else
    let (l, _, s') := find_route_i fuel [fromId] dst fromId s
    (l, s')

/-! ## Gossip forward decision (`forward_topology_message`) -/

/-- `topology_message` header (the payload list plays no part in the
forward decision). -/
structure TopologyMessage where
  origin : Nat
  destination : Nat
  fwds : Nat
  ttl : Nat
deriving DecidableEq

/-- `links[li]` on the forward path: a bare `operator[]`, default-inserting
when absent. -/
def ensureLink (li : Nat) (s : State) : State :=
  { s with links := ensureM defaultTopoLink li s.links }

/-- `nodes[origin].routes[local].length`, then recompute via
`find_route(local, origin)` when the cached length is `-1`
(both `operator[]`s default-insert). -/
def fetched_len (fuel origin : Nat) (s : State) : Int × State :=
  let (_, s1) := getNodeD origin s
  let (rd, s2) := getRouteD origin s1.local_node_id s1
  if rd.length = -1 then find_route fuel s2.local_node_id origin s2
  else (rd.length, s2)

/-- `forward_topology_message`: refuse a locally-originated message already
forwarded once; otherwise refuse when the fetched-or-computed distance is
less than the message's forward count; otherwise permit. -/
def forward_topology_message (fuel : Nat) (tm : TopologyMessage) (li : Nat) (s : State) :
    Bool × State :=
  let s0 := ensureLink li s
  if tm.origin = s0.local_node_id ∧ 0 < tm.fwds then (false, s0)
  else
    let (len, s3) := fetched_len fuel tm.origin s0
    if len < (tm.fwds : Int) then (false, s3) else (true, s3)

/-- Modelled from the spec: the forward/drop rule of §4.6 as written —
refuse a self-originated, already-forwarded message; refuse when the
distance to the origin is below the forward count; otherwise permit.
Used to compare the source's decision against the spec's. -/
def should_forward_spec (origin localId fwds : Nat) (dist : Int) : Bool :=
  if origin = localId ∧ 0 < fwds then false
  else if dist < (fwds : Int) then false
  else true

/-! ## Association-list lemmas -/

/-- `((lookupM q s.producers).getD default).current`, the still-open deviation
record of producer `q`. -/
def currentOf (s : State) (q : String) : ForkDescriptor :=
  ((lookupM q s.producers).getD defaultProducer).current

/-! ## Traversal adjacency

`find_route_i` explores, from the node stored at key `u`, the links listed in
that node's link set that are present in the link table, stepping to the far
endpoint computed against the stored `info.my_id`.  `Edge`/`Reach` capture
exactly that step relation (an absent node behaves like the default node:
`my_id = 0`, no links). -/

def adjData (s : State) (u : Nat) : Nat × List Nat :=
  match lookupM u s.nodes with
  | some n => (n.info.my_id, n.links)
  | none => (0, [])

def Edge (s : State) (u v : Nat) : Prop :=
  ∃ lid ∈ (adjData s u).2, ∃ tl, lookupM lid s.links = some tl ∧ peerOf tl.info (adjData s u).1 = v

def Reach (s : State) : Nat → Nat → Prop :=
  Relation.ReflTransGen (Edge s)

/-! ## Concrete states used by the claims -/

/-- Just before the 13th consecutive block of the head producer. -/
def overageState : State := { initState with block_count := 12 }

/-- Just before a hand-off with only 8 blocks produced against quota 12. -/
def handoff8State : State := { initState with block_count := 8 }

/-- A node of the chain graph A–B–C–D (id as stated, given link set). -/
def chainNode (i : Nat) (ls : List Nat) : Nat × TopoNode :=
  (i, ⟨{ defaultNodeDesc with my_id := i }, ls, []⟩)

/-- A link of the chain graph. -/
def chainLink (i a p : Nat) : Nat × TopoLink := (i, ⟨⟨i, a, p, .blocks⟩, 0⟩)

/-- The chain A–B–C–D: nodes 1,2,3,4 and links 10 = (1,2), 20 = (2,3),
30 = (3,4), each registered in both endpoints' link sets. -/
def chainS : State :=
  { initState with
    nodes := [chainNode 1 [10], chainNode 2 [10, 20], chainNode 3 [20, 30], chainNode 4 [30]],
    links := [chainLink 10 1 2, chainLink 20 2 3, chainLink 30 3 4] }

/-- Two nodes, no links at all, but node 1 still carries a stale cached route
of length 5 toward node 2 (`path = 99 ≠ 0`). -/
def poisonedState : State :=
  { initState with
    nodes := [(1, ⟨{ defaultNodeDesc with my_id := 1 }, [], [(2, ⟨5, 99⟩)]⟩),
              (2, ⟨{ defaultNodeDesc with my_id := 2 }, [], []⟩)] }

/-- A map delta that only drops link 5. -/
def dropOnlyMU : MapUpdate := ⟨[], [], [], [5]⟩

/-- The claimed shape of a deviation record: exactly one meaningful field. -/
def exactlyOneSymptom (fd : ForkDescriptor) : Prop :=
  (fd.depth ≠ 0 ∧ fd.deficit = 0 ∧ fd.overage = 0) ∨
  (fd.depth = 0 ∧ fd.deficit ≠ 0 ∧ fd.overage = 0) ∨
  (fd.depth = 0 ∧ fd.deficit = 0 ∧ fd.overage ≠ 0)

/-! ## Operation sequences and closure accounting -/

/-- The state-mutating operations of the plugin interface. -/
inductive Op
  | addNode (nd : NodeDescriptor)
  | dropNode (id : Nat)
  | addLink (ld : LinkDescriptor)
  | dropLink (id : Nat)
  | updateMap (mu : MapUpdate)
  | findRoute (fuel fromId dst : Nat)
  | onBlock (src blk : Nat) (sbp head pend : String)
  | forward (fuel : Nat) (tm : TopologyMessage) (li : Nat)

def applyOp (h hL : String → Nat) : Op → State → State
  | .addNode nd, s => add_node h nd s
  | .dropNode id, s => drop_node id s
  | .addLink ld, s => add_link hL ld s
  | .dropLink id, s => drop_link id s
  | .updateMap mu, s => update_map h hL mu s
  | .findRoute fuel f d, s => (find_route fuel f d s).2
  | .onBlock src blk sbp head pend, s => on_block_recv src blk sbp head pend s
  | .forward fuel tm li, s => (forward_topology_message fuel tm li s).2

def applyOps (h hL : String → Nat) (ops : List Op) (s : State) : State :=
  ops.foldl (fun t op => applyOp h hL op t) s

/-- The closure counter of link `id` as read through the table. -/
def closuresOf (s : State) (id : Nat) : Nat :=
  ((lookupM id s.links).getD defaultTopoLink).closures

/-- How many `drop_link(id)` calls an operation performs (`update_map`
performs one per entry of its `drop_links` list). -/
def opDrops (op : Op) (id : Nat) : Nat :=
  match op with
  | .dropLink i => if i = id then 1 else 0
  | .updateMap mu => mu.drop_links.count id
  | _ => 0

def countDrops (ops : List Op) (id : Nat) : Nat :=
  (ops.map (fun op => opDrops op id)).sum

/-! ## Idempotence of `update_map` without link drops -/

/-- The id `add_node` files a descriptor under. -/
def anId (h : String → Nat) (nd : NodeDescriptor) : Nat :=
  if nd.my_id = 0 then gen_id_node h nd else nd.my_id

/-- The descriptor as stored by `add_node` (id assigned when absent). -/
def ndFix (h : String → Nat) (nd : NodeDescriptor) : NodeDescriptor :=
  if nd.my_id = 0 then { nd with my_id := gen_id_node h nd } else nd

def anFold (h : String → Nat) (l : List NodeDescriptor) (s : State) : State :=
  l.foldl (fun t nd => add_node h nd t) s

def alFold (hL : String → Nat) (l : List LinkDescriptor) (s : State) : State :=
  l.foldl (fun t ld => add_link hL ld t) s

def dnFold (l : List Nat) (s : State) : State :=
  l.foldl (fun t id => drop_node id t) s

def dlFold (l : List Nat) (s : State) : State :=
  l.foldl (fun t id => drop_link id t) s

/-- Every state component other than the two graph tables. -/
def projOther (s : State) : List (String × TopoProducer) × Nat × Nat × String × Nat :=
  (s.producers, s.max_produced, s.block_count, s.prev_producer, s.local_node_id)

/-- A delta exercising every kind of entry except link drops. -/
def idemMU : MapUpdate :=
  ⟨[⟨0, "n", .producer, "v", [], 0⟩], [⟨0, 3, 4, .blocks⟩], [9], []⟩

/-! ## `find_route` on clean caches and disconnected nodes -/

/-- Every cached route entry toward destination `dst` is the unknown
sentinel `route_descriptor()` — length −1, path 0. -/
def Clean (s : State) (dst : Nat) : Prop :=
  ∀ u n, lookupM u s.nodes = some n → ∀ rd, lookupM dst n.routes = some rd → rd = defaultRoute

/-- What a routing step may do to the state: leave caches toward `dst`
clean, and preserve the traversal adjacency and the link table. -/
def RoutePure (dst : Nat) (s s' : State) : Prop :=
  Clean s' dst ∧ (∀ u, adjData s' u = adjData s u) ∧ s'.links = s.links

/-- A single node, id 1. -/
def lonelyState : State :=
  { initState with nodes := [(1, ⟨{ defaultNodeDesc with my_id := 1 }, [], []⟩)] }

/-- Two nodes, no links, no cached routes. -/
def isolatedPairState : State :=
  { initState with
    nodes := [(1, ⟨{ defaultNodeDesc with my_id := 1 }, [], []⟩),
              (2, ⟨{ defaultNodeDesc with my_id := 2 }, [], []⟩)] }

section MapLemmas

variable {κ : Type} [DecidableEq κ] {α : Type}

theorem lookupM_cons (e : κ × α) (t : List (κ × α)) (k : κ) :
    lookupM k (e :: t) = if e.1 = k then some e.2 else lookupM k t := rfl

theorem modifyM_cons (k : κ) (f : α → α) (e : κ × α) (t : List (κ × α)) :
    modifyM k f (e :: t) = (if e.1 = k then (k, f e.2) else e) :: modifyM k f t := by
  by_cases h : e.1 = k <;> simp [modifyM, h]

theorem eraseM_cons (k : κ) (e : κ × α) (t : List (κ × α)) :
    eraseM k (e :: t) = if e.1 = k then eraseM k t else e :: eraseM k t := by
  by_cases h : e.1 = k <;> simp [eraseM, h]

theorem lookupM_eq_none {k : κ} {l : List (κ × α)} :
    lookupM k l = none ↔ ∀ e ∈ l, e.1 ≠ k := by
  induction l with
  | nil => simp [lookupM]
  | cons e t ih =>
    by_cases h : e.1 = k <;> simp [lookupM_cons, h, ih]

theorem lookupM_isSome_of_mem {k : κ} {l : List (κ × α)} {e : κ × α}
    (he : e ∈ l) (hk : e.1 = k) : (lookupM k l).isSome := by
  cases h : lookupM k l with
  | some v => rfl
  | none => exact absurd hk (lookupM_eq_none.mp h e he)

theorem lookup_modifyM_self (k : κ) (f : α → α) (l : List (κ × α)) :
    lookupM k (modifyM k f l) = (lookupM k l).map f := by
  induction l with
  | nil => rfl
  | cons e t ih =>
    by_cases h : e.1 = k
    · simp [lookupM_cons, modifyM_cons, h]
    · simp [lookupM_cons, modifyM_cons, h, ih]

theorem lookup_modifyM_ne {k' k : κ} (h : k' ≠ k) (f : α → α) (l : List (κ × α)) :
    lookupM k' (modifyM k f l) = lookupM k' l := by
  induction l with
  | nil => rfl
  | cons e t ih =>
    by_cases he : e.1 = k
    · have hkk : ¬ (k = k') := Ne.symm h
      have hek : ¬ (e.1 = k') := by rw [he]; exact Ne.symm h
      simp [lookupM_cons, modifyM_cons, he, hkk, hek, ih]
    · by_cases he' : e.1 = k' <;> simp [lookupM_cons, modifyM_cons, he, he', h, ih]

theorem lookup_setM_self (k : κ) (v : α) (l : List (κ × α)) :
    lookupM k (setM k v l) = some v := by
  unfold setM
  cases h : lookupM k l with
  | some w => simp [lookup_modifyM_self, h]
  | none => simp [lookupM_cons]

theorem lookup_setM_ne {k' k : κ} (h : k' ≠ k) (v : α) (l : List (κ × α)) :
    lookupM k' (setM k v l) = lookupM k' l := by
  unfold setM
  cases hl : lookupM k l with
  | some w => simp [lookup_modifyM_ne h]
  | none => simp [lookupM_cons, Ne.symm h]

theorem lookup_ensureM_self (d : α) (k : κ) (l : List (κ × α)) :
    lookupM k (ensureM d k l) = some ((lookupM k l).getD d) := by
  unfold ensureM
  cases h : lookupM k l with
  | some w => simp [h]
  | none => simp [lookupM_cons]

theorem lookup_ensureM_ne {k' k : κ} (h : k' ≠ k) (d : α) (l : List (κ × α)) :
    lookupM k' (ensureM d k l) = lookupM k' l := by
  unfold ensureM
  cases hl : lookupM k l with
  | some w => rfl
  | none => simp [lookupM_cons, Ne.symm h]

theorem lookup_insertNewM_self (k : κ) (v : α) (l : List (κ × α)) :
    lookupM k (insertNewM k v l) = some ((lookupM k l).getD v) := by
  unfold insertNewM
  cases h : lookupM k l with
  | some w => simp [h]
  | none => simp [lookupM_cons]

theorem lookup_insertNewM_ne {k' k : κ} (h : k' ≠ k) (v : α) (l : List (κ × α)) :
    lookupM k' (insertNewM k v l) = lookupM k' l := by
  unfold insertNewM
  cases hl : lookupM k l with
  | some w => rfl
  | none => simp [lookupM_cons, Ne.symm h]

theorem lookup_eraseM_self (k : κ) (l : List (κ × α)) :
    lookupM k (eraseM k l) = none := by
  induction l with
  | nil => rfl
  | cons e t ih =>
    by_cases h : e.1 = k <;> simp [lookupM_cons, eraseM_cons, h, ih]

theorem lookup_eraseM_ne {k' k : κ} (h : k' ≠ k) (l : List (κ × α)) :
    lookupM k' (eraseM k l) = lookupM k' l := by
  induction l with
  | nil => rfl
  | cons e t ih =>
    by_cases he : e.1 = k
    · have hek : ¬ (e.1 = k') := by rw [he]; exact Ne.symm h
      simp [lookupM_cons, eraseM_cons, he, hek, Ne.symm h, ih]
    · by_cases he' : e.1 = k' <;> simp [lookupM_cons, eraseM_cons, he, he', h, ih]

end MapLemmas

/-! ## Deviation-detector lemmas -/

theorem forksOf_pushFork_self (p : String) (fd : ForkDescriptor) (s : State) :
    forksOf (pushFork p fd s) p = forksOf s p ++ [fd] := by
  simp [forksOf, pushFork, lookup_setM_self]

theorem forksOf_pushFork_ne {q p : String} (h : q ≠ p) (fd : ForkDescriptor) (s : State) :
    forksOf (pushFork p fd s) q = forksOf s q := by
  simp [forksOf, pushFork, lookup_setM_ne h]

theorem currentOf_pushFork (p q : String) (fd : ForkDescriptor) (s : State) :
    currentOf (pushFork p fd s) q = currentOf s q := by
  unfold currentOf pushFork
  by_cases h : q = p
  · subst h
    rw [lookup_setM_self]
    rfl
  · rw [lookup_setM_ne h]

theorem pushFork_prev_producer (p : String) (fd : ForkDescriptor) (s : State) :
    (pushFork p fd s).prev_producer = s.prev_producer := rfl

theorem forksOf_deficit_step (src blk : Nat) (head : String) (s : State) (p : String) :
    forksOf (deficit_step src blk head s) p =
      if (currentOf s s.prev_producer).from_link ≠ 0 ∧ p = s.prev_producer
      then forksOf (pushFork head ⟨src, blk, s.block_count, s.max_produced - s.block_count, 0⟩ s)
            s.prev_producer ++ [currentOf s s.prev_producer]
      else forksOf (pushFork head ⟨src, blk, s.block_count, s.max_produced - s.block_count, 0⟩ s) p := by
  have hc := currentOf_pushFork head s.prev_producer
    ⟨src, blk, s.block_count, s.max_produced - s.block_count, 0⟩ s
  unfold currentOf at hc
  simp only [deficit_step, pushFork_prev_producer, hc]
  split_ifs with hfl hp hp
  · rcases hp with ⟨-, hp⟩
    subst hp
    simp only [forksOf, lookup_setM_self, Option.getD_some, hc]
    rfl
  · have hp' : p ≠ s.prev_producer := fun hh => hp ⟨hfl, hh⟩
    simp only [forksOf, lookup_setM_ne hp']
  · exact absurd hp.1 hfl
  · by_cases hp' : p = s.prev_producer
    · subst hp'
      simp only [forksOf, lookup_setM_self, Option.getD_some]
    · simp only [forksOf, lookup_setM_ne hp']

/-- The count resets to 1 on any under-quota hand-off, and otherwise the
second branch also resets it. -/
theorem on_block_handoff_count (src blk : Nat) (sbp head pend : String) (s : State)
    (h1 : ¬ sbp = head) (h2 : sbp = pend) :
    (on_block_recv src blk sbp head pend s).block_count = 1 := by
  subst h2
  simp [on_block_recv, h1]

theorem on_block_deficit (src blk : Nat) (sbp head pend : String) (s : State)
    (h1 : ¬ sbp = head) (h2 : sbp = pend) (hlt : s.block_count < s.max_produced) :
    ∀ p, forksOf (on_block_recv src blk sbp head pend s) p = forksOf (deficit_step src blk head s) p := by
  intro p
  subst h2
  simp [on_block_recv, h1, hlt, forksOf]

theorem on_block_same_head (src blk : Nat) (sbp head pend : String) (s : State)
    (h1 : sbp = head) :
    on_block_recv src blk sbp head pend s = { s with block_count := (s.block_count + 1) % 65536 } := by
  simp only [on_block_recv, if_pos h1]

theorem on_block_no_deficit (src blk : Nat) (sbp head pend : String) (s : State)
    (h1 : ¬ sbp = head) (h2 : sbp = pend) (hge : ¬ s.block_count < s.max_produced) :
    on_block_recv src blk sbp head pend s = { s with block_count := 1 } := by
  subst h2
  simp [on_block_recv, h1, hge]

theorem on_block_stale (src blk : Nat) (sbp head pend : String) (s : State)
    (h1 : ¬ sbp = head) (h2 : ¬ sbp = pend) :
    on_block_recv src blk sbp head pend s = s := by
  simp only [on_block_recv, if_neg h1, if_neg h2]

theorem reach_eq_of_no_edge {s : State} {a b : Nat} (hne : ∀ u v, ¬ Edge s u v)
    (h : Reach s a b) : a = b := by
  induction h with
  | refl => rfl
  | tail _ he _ => exact absurd he (hne _ _)

theorem no_edge_of_links_nil {s : State} (hl : s.links = []) (u v : Nat) : ¬ Edge s u v := by
  rintro ⟨lid, _, tl, htl, -⟩
  rw [hl] at htl
  simp [lookupM] at htl

/-! ## Claims -/

/-- C1: with `max_produced = 12` and the running count at 12, a 13th
consecutive block from the head producer only advances the count to 13; the
computed overage of 1 is merely logged and no `fork_descriptor` is appended —
the producer table (hence every deviation history) is left untouched,
contradicting the spec's "an overage event with value 1 is recorded". -/
theorem overage_not_recorded :
    overageState.max_produced = 12 ∧ overageState.block_count = 12 ∧
    (on_block_recv 5 99 "alice" "alice" "bob" overageState).block_count = 13 ∧
    (on_block_recv 5 99 "alice" "alice" "bob" overageState).producers =
      overageState.producers := by
  decide

/-- C2: on a hand-off (block from the pending, not the head, producer)
observed with running count 8 against quota 12, a deficit record with
`deficit = 4` is appended to the outgoing head producer's history and the
running count is reset to 1. -/
theorem handoff_deficit_recorded (s : State) (src blk : Nat) (sbp head pend : String)
    (hmax : s.max_produced = 12) (hbc : s.block_count = 8)
    (h1 : ¬ sbp = head) (h2 : sbp = pend) :
    (∃ t, forksOf (on_block_recv src blk sbp head pend s) head =
        forksOf s head ++ (⟨src, blk, 8, 4, 0⟩ : ForkDescriptor) :: t) ∧
    (on_block_recv src blk sbp head pend s).block_count = 1 := by
  have hlt : s.block_count < s.max_produced := by omega
  refine ⟨?_, on_block_handoff_count src blk sbp head pend s h1 h2⟩
  have hfk := on_block_deficit src blk sbp head pend s h1 h2 hlt head
  rw [forksOf_deficit_step, hbc, hmax] at hfk
  simp only [show (12 : Nat) - 8 = 4 from rfl] at hfk
  by_cases hcond : (currentOf s s.prev_producer).from_link ≠ 0 ∧ head = s.prev_producer
  · rw [if_pos hcond] at hfk
    rcases hcond with ⟨-, hph⟩
    refine ⟨[currentOf s s.prev_producer], ?_⟩
    rw [hfk, ← hph, forksOf_pushFork_self]
    simp
  · rw [if_neg hcond] at hfk
    exact ⟨[], by rw [hfk, forksOf_pushFork_self]⟩

/-- Witness for C2 at a concrete state and inputs. -/
theorem handoff_deficit_recorded_witness :
    (∃ t, forksOf (on_block_recv 5 99 "bob" "alice" "bob" handoff8State) "alice" =
        forksOf handoff8State "alice" ++ (⟨5, 99, 8, 4, 0⟩ : ForkDescriptor) :: t) ∧
    (on_block_recv 5 99 "bob" "alice" "bob" handoff8State).block_count = 1 :=
  handoff_deficit_recorded handoff8State 5 99 "bob" "alice" "bob" rfl rfl (by decide) rfl

/-- C9 counterexample: the record appended at the 8-against-12 hand-off is
`{src, blk, depth = 8, deficit = 4, overage = 0}`: both `depth` and `deficit`
are nonzero, so it does not have exactly one meaningful field. -/
theorem fork_record_two_nonzero_fields :
    forksOf (on_block_recv 5 99 "bob" "alice" "bob" handoff8State) "alice" =
      [⟨5, 99, 8, 4, 0⟩] ∧
    ¬ exactlyOneSymptom ⟨5, 99, 8, 4, 0⟩ := by
  refine ⟨by decide, ?_⟩
  unfold exactlyOneSymptom
  decide

/-- C9 amended: every record the detector appends has `overage = 0` and a
nonzero `deficit`; its `depth` field carries the running block count at the
hand-off and may be nonzero as well (so at most two fields are meaningful,
not exactly one).  Stated for states whose previous producer has no open
record, which the code never creates (`update_forks` is empty). -/
theorem fork_record_fields (s : State) (src blk : Nat) (sbp head pend : String)
    (hclean : (currentOf s s.prev_producer).from_link = 0) (p : String) :
    forksOf (on_block_recv src blk sbp head pend s) p = forksOf s p ∨
    ∃ r : ForkDescriptor,
      forksOf (on_block_recv src blk sbp head pend s) p = forksOf s p ++ [r] ∧
      r.overage = 0 ∧ r.deficit ≠ 0 ∧ r.depth = s.block_count := by
  by_cases h1 : sbp = head
  · left
    rw [on_block_same_head src blk sbp head pend s h1]
    rfl
  · by_cases h2 : sbp = pend
    · by_cases hlt : s.block_count < s.max_produced
      · have hfk := on_block_deficit src blk sbp head pend s h1 h2 hlt p
        rw [forksOf_deficit_step] at hfk
        have hcond : ¬ ((currentOf s s.prev_producer).from_link ≠ 0 ∧ p = s.prev_producer) :=
          fun hc => hc.1 hclean
        rw [if_neg hcond] at hfk
        by_cases hp : p = head
        · subst hp
          right
          exact ⟨⟨src, blk, s.block_count, s.max_produced - s.block_count, 0⟩,
            by rw [hfk, forksOf_pushFork_self], rfl, Nat.sub_ne_zero_of_lt hlt, rfl⟩
        · left
          rw [hfk, forksOf_pushFork_ne hp]
      · left
        rw [on_block_no_deficit src blk sbp head pend s h1 h2 hlt]
        rfl
    · left
      rw [on_block_stale src blk sbp head pend s h1 h2]

/-- Witness for the amended C9 at a concrete state and inputs. -/
theorem fork_record_fields_witness :
    (currentOf initState initState.prev_producer).from_link = 0 ∧
    (forksOf (on_block_recv 5 99 "bob" "alice" "bob" initState) "alice" =
        forksOf initState "alice" ∨
      ∃ r : ForkDescriptor,
        forksOf (on_block_recv 5 99 "bob" "alice" "bob" initState) "alice" =
          forksOf initState "alice" ++ [r] ∧
        r.overage = 0 ∧ r.deficit ≠ 0 ∧ r.depth = initState.block_count) :=
  ⟨rfl, fork_record_fields initState 5 99 "bob" "alice" "bob" rfl "alice"⟩

/-- C4: on the chain A–B–C–D (nodes 1–4, links 10, 20, 30),
`find_route(A, D)` returns length 3 and caches `{3, link 10}` — link(A,B) as
the first hop — at node A for destination D, and `find_route(X, X)` returns 0
for every node X of the graph (the node table holds exactly 1, 2, 3, 4). -/
theorem chain_route_properties :
    (find_route 10 1 4 chainS).1 = 3 ∧
    (lookupM 1 (find_route 10 1 4 chainS).2.nodes).map (fun n => lookupM 4 n.routes) =
      some (some ⟨3, 10⟩) ∧
    chainS.nodes.map Prod.fst = [1, 2, 3, 4] ∧
    chainS.links.map Prod.fst = [10, 20, 30] ∧
    (find_route 10 1 1 chainS).1 = 0 ∧ (find_route 10 2 2 chainS).1 = 0 ∧
    (find_route 10 3 3 chainS).1 = 0 ∧ (find_route 10 4 4 chainS).1 = 0 := by
  decide

/-- C5 counterexample: in a state where nodes 1 and 2 both exist, the link
table is empty (so no sequence of links connects anything), but node 1 holds
a stale cached route `{5, 99}` toward node 2, `find_route(1, 2)` returns the
finite non-negative length 5, not the −1 sentinel. -/
theorem stale_cache_finite_length :
    (lookupM 1 poisonedState.nodes).isSome = true ∧
    (lookupM 2 poisonedState.nodes).isSome = true ∧
    poisonedState.links = [] ∧
    ¬ Reach poisonedState 1 2 ∧
    (find_route 10 1 2 poisonedState).1 = 5 ∧
    0 ≤ (find_route 10 1 2 poisonedState).1 := by
  refine ⟨rfl, rfl, rfl, ?_, by decide, by decide⟩
  intro h
  have h12 := reach_eq_of_no_edge (no_edge_of_links_nil rfl) h
  exact absurd h12 (by decide)

/-- C3 counterexample: applying the delta that drops link 5 twice does not
leave the link table unchanged after the second application: the closure
counter of link 5 is 1 after one application and 2 after two. -/
theorem update_map_twice_changes_links :
    lookupM 5 (update_map (fun _ => 0) (fun _ => 0) dropOnlyMU
        (update_map (fun _ => 0) (fun _ => 0) dropOnlyMU initState)).links =
      some ⟨defaultLinkDesc, 2⟩ ∧
    lookupM 5 (update_map (fun _ => 0) (fun _ => 0) dropOnlyMU initState).links =
      some ⟨defaultLinkDesc, 1⟩ := by
  decide

/-- C6: the forward decision is exactly: refuse a locally-originated message
already forwarded at least once; otherwise refuse when the distance to the
origin — read from the origin node's cached route to the local node, or
computed on demand by `find_route(local, origin)` when that cache slot holds
the −1 sentinel — is less than the message's forward count; otherwise
permit. -/
theorem forward_decision (fuel : Nat) (tm : TopologyMessage) (li : Nat) (s : State) :
    (forward_topology_message fuel tm li s).1 =
      should_forward_spec tm.origin s.local_node_id tm.fwds
        (fetched_len fuel tm.origin (ensureLink li s)).1 := by
  by_cases h1 : tm.origin = s.local_node_id ∧ 0 < tm.fwds
  · simp only [forward_topology_message, should_forward_spec, ensureLink, if_pos h1]
  · simp only [forward_topology_message, should_forward_spec, ensureLink, if_neg h1]
    rw [apply_ite Prod.fst]

/-- C8: node identity is a function of exactly location, role, version and
the hosted-producer list, and link identity of exactly the active id, passive
id and role — equal there (whatever the remaining fields and whoever hashes)
means equal ids, for any digest function. -/
theorem identity_deterministic :
    (∀ (h : String → Nat) (d1 d2 : NodeDescriptor),
        d1.location = d2.location → d1.role = d2.role → d1.version = d2.version →
        d1.producers = d2.producers → gen_id_node h d1 = gen_id_node h d2) ∧
    (∀ (h : String → Nat) (l1 l2 : LinkDescriptor),
        l1.active = l2.active → l1.passive = l2.passive → l1.role = l2.role →
        gen_id_link h l1 = gen_id_link h l2) := by
  constructor
  · intro h d1 d2 h1 h2 h3 h4
    unfold gen_id_node gen_long_id serializeNode
    rw [h1, h2, h3, h4]
  · intro h l1 l2 h1 h2 h3
    unfold gen_id_link serializeLink
    rw [h1, h2, h3]

/-- Witness for C8: descriptors differing only in `my_id`/`status` get the
same id under a concrete digest function. -/
theorem identity_deterministic_witness :
    gen_id_node String.length ⟨1, "loc", .producer, "v1", ["p1"], 0⟩ =
      gen_id_node String.length ⟨2, "loc", .producer, "v1", ["p1"], 7⟩ ∧
    gen_id_link String.length ⟨3, 10, 20, .blocks⟩ =
      gen_id_link String.length ⟨4, 10, 20, .blocks⟩ :=
  ⟨identity_deterministic.1 String.length _ _ rfl rfl rfl rfl,
   identity_deterministic.2 String.length _ _ rfl rfl rfl⟩

/-- C10: `drop_link` on an id absent from the link table is not a no-op: it
default-inserts a fresh record under that id (the table grows by one entry)
with its closure counter at 1. -/
theorem drop_link_absent (s : State) (id : Nat) (h : lookupM id s.links = none) :
    (drop_link id s).links.length = s.links.length + 1 ∧
    lookupM id (drop_link id s).links = some ⟨defaultLinkDesc, 1⟩ := by
  unfold drop_link
  rw [h]
  simp [setM, h, lookupM_cons, defaultTopoLink]

/-- Witness for C10 at the empty table. -/
theorem drop_link_absent_witness :
    (drop_link 7 initState).links.length = initState.links.length + 1 ∧
    lookupM 7 (drop_link 7 initState).links = some ⟨defaultLinkDesc, 1⟩ :=
  drop_link_absent initState 7 rfl

theorem registerLink_links (endp lid : Nat) (s : State) :
    (registerLink endp lid s).links = s.links := by
  unfold registerLink
  split <;> rfl

theorem getNodeD_links (id : Nat) (s : State) : (getNodeD id s).2.links = s.links := by
  unfold getNodeD
  split <;> rfl

theorem getRouteD_links (n d : Nat) (s : State) : (getRouteD n d s).2.links = s.links := by
  unfold getRouteD
  split <;> rfl

theorem setRoute_links (n d : Nat) (rd : RouteDesc) (s : State) :
    (setRoute n d rd s).links = s.links := rfl

theorem frLoop_links (rec : List Nat → Nat → Nat → State → Int × List Nat × State)
    (hrec : ∀ seen d f s, ((rec seen d f s).2.2).links = s.links) (d f m : Nat) :
    ∀ (L : List Nat) (best : RouteDesc) (seen : List Nat) (s : State),
      ((frLoop rec d f m L best seen s).2.2.2).links = s.links := by
  intro L
  induction L with
  | nil => intro best seen s; rfl
  | cons lid rest ih =>
    intro best seen s
    rw [frLoop]
    cases hl : lookupM lid s.links with
    | none =>
      simpa using ih best seen s
    | some l =>
      simp only []
      by_cases hp : peerOf l.info m = d
      · simp [hp, setRoute_links]
      · by_cases hs : peerOf l.info m ∈ seen
        · simp [hp, hs, ih best seen s]
        · rcases hg : getNodeD (peerOf l.info m) s with ⟨n, s1⟩
          have hg1 : s1.links = s.links := by
            have := getNodeD_links (peerOf l.info m) s
            rw [hg] at this
            exact this
          rcases hr : rec (peerOf l.info m :: seen) d (peerOf l.info m) s1 with ⟨res, seen2, s2⟩
          have hr1 : s2.links = s1.links := by
            have := hrec (peerOf l.info m :: seen) d (peerOf l.info m) s1
            rw [hr] at this
            exact this
          by_cases hres : res = -1
          · simp [hp, hs, hg, hr, hres, ih, hr1, hg1]
          · simp [hp, hs, hg, hr, hres, ih, hr1, hg1]

theorem find_route_i_links :
    ∀ (fuel : Nat) (seen : List Nat) (d f : Nat) (s : State),
      ((find_route_i fuel seen d f s).2.2).links = s.links := by
  intro fuel
  induction fuel with
  | zero => intros; rfl
  | succ fuel ih =>
    intro seen d f s
    rcases hg : getNodeD f s with ⟨n, s0⟩
    have hg1 : s0.links = s.links := by
      have := getNodeD_links f s
      rw [hg] at this
      exact this
    rcases hr : getRouteD f d s0 with ⟨best0, s1⟩
    have hr1 : s1.links = s0.links := by
      have := getRouteD_links f d s0
      rw [hr] at this
      exact this
    rcases hfl : frLoop (find_route_i fuel) d f n.info.my_id n.links best0 seen s1
      with ⟨o, best, seen2, s2⟩
    have hfl1 : s2.links = s1.links := by
      have := frLoop_links (find_route_i fuel) ih d f n.info.my_id n.links best0 seen s1
      rw [hfl] at this
      exact this
    simp only [find_route_i, hg, hr, hfl]
    by_cases hp : best0.path = 0
    · cases o with
      | some r => simp [hp, hfl1, hr1, hg1]
      | none => simp [hp, setRoute_links, hfl1, hr1, hg1]
    · simp [hp, hr1, hg1]

theorem find_route_links (fuel f d : Nat) (s : State) :
    ((find_route fuel f d s).2).links = s.links := by
  rcases hi : find_route_i fuel [f] d f s with ⟨l, seen2, s2⟩
  have hi1 : s2.links = s.links := by
    have := find_route_i_links fuel [f] d f s
    rw [hi] at this
    exact this
  simp only [find_route, hi]
  by_cases h1 : (lookupM d s.nodes).isNone
  · simp [h1]
  · by_cases h2 : (lookupM f s.nodes).isNone
    · simp [h1, h2]
    · by_cases h3 : d = f
      · simp [h1, h2, h3, setRoute_links]
      · simp [h1, h2, h3, hi1]

theorem deficit_step_links (src blk : Nat) (head : String) (s : State) :
    (deficit_step src blk head s).links = s.links := by
  simp only [deficit_step]
  split <;> rfl

theorem on_block_recv_links (src blk : Nat) (sbp head pend : String) (s : State) :
    (on_block_recv src blk sbp head pend s).links = s.links := by
  simp only [on_block_recv]
  by_cases h1 : sbp = head
  · simp [h1]
  · by_cases h2 : sbp = pend
    · subst h2
      by_cases h3 : s.block_count < s.max_produced
      · simp [h1, h3, deficit_step_links]
      · simp [h1, h3]
    · simp [h1, h2]

theorem closuresOf_ensureLink (li : Nat) (s : State) (id : Nat) :
    closuresOf (ensureLink li s) id = closuresOf s id := by
  unfold closuresOf ensureLink
  by_cases h : id = li
  · subst h
    show ((lookupM id (ensureM defaultTopoLink id s.links)).getD defaultTopoLink).closures = _
    rw [lookup_ensureM_self]
    cases hl : lookupM id s.links <;> simp [hl, defaultTopoLink]
  · show ((lookupM id (ensureM defaultTopoLink li s.links)).getD defaultTopoLink).closures = _
    rw [lookup_ensureM_ne h]

theorem fetched_len_links (fuel origin : Nat) (s : State) :
    ((fetched_len fuel origin s).2).links = s.links := by
  rcases hg : getNodeD origin s with ⟨n, s1⟩
  have hg1 : s1.links = s.links := by
    have := getNodeD_links origin s
    rw [hg] at this
    exact this
  rcases hr : getRouteD origin s1.local_node_id s1 with ⟨rd, s2⟩
  have hr1 : s2.links = s1.links := by
    have := getRouteD_links origin s1.local_node_id s1
    rw [hr] at this
    exact this
  simp only [fetched_len, hg, hr]
  by_cases hl : rd.length = -1
  · simp [hl, find_route_links, hr1, hg1]
  · simp [hl, hr1, hg1]

theorem closuresOf_congr_links {s1 s2 : State} (h : s1.links = s2.links) (id : Nat) :
    closuresOf s1 id = closuresOf s2 id := by
  unfold closuresOf
  rw [h]

theorem closuresOf_forward (fuel : Nat) (tm : TopologyMessage) (li : Nat) (s : State) (id : Nat) :
    closuresOf ((forward_topology_message fuel tm li s).2) id = closuresOf s id := by
  rcases hf : fetched_len fuel tm.origin (ensureLink li s) with ⟨len, s3⟩
  have hfl : s3.links = (ensureLink li s).links := by
    have := fetched_len_links fuel tm.origin (ensureLink li s)
    rw [hf] at this
    exact this
  have hcl : closuresOf s3 id = closuresOf s id :=
    (closuresOf_congr_links hfl id).trans (closuresOf_ensureLink li s id)
  simp only [forward_topology_message, hf]
  by_cases h1 : tm.origin = (ensureLink li s).local_node_id ∧ 0 < tm.fwds
  · simp [h1, closuresOf_ensureLink]
  · by_cases h2 : len < (tm.fwds : Int)
    · simp [h1, h2, hcl]
    · simp [h1, h2, hcl]

theorem closuresOf_drop_link (i : Nat) (s : State) (id : Nat) :
    closuresOf (drop_link i s) id =
      if i = id then (closuresOf s id + 1) % 4294967296 else closuresOf s id := by
  unfold closuresOf drop_link
  by_cases h : i = id
  · subst h
    show ((lookupM i (setM i _ s.links)).getD defaultTopoLink).closures = _
    rw [lookup_setM_self]
    simp
  · have h' : id ≠ i := fun hh => h hh.symm
    show ((lookupM id (setM i _ s.links)).getD defaultTopoLink).closures = _
    rw [lookup_setM_ne h']
    simp [h]

theorem closuresOf_add_link (hL : String → Nat) (ld : LinkDescriptor) (s : State) (id : Nat) :
    closuresOf (add_link hL ld s) id = closuresOf s id := by
  unfold closuresOf add_link
  simp only [registerLink_links]
  by_cases h : gen_id_link hL ld = id
  · subst h
    rw [lookup_insertNewM_self]
    cases hl : lookupM (gen_id_link hL ld) s.links <;> simp [hl, defaultTopoLink]
  · have h' : id ≠ gen_id_link hL ld := fun hh => h hh.symm
    rw [lookup_insertNewM_ne h']

theorem closuresOf_dropFold (dl : List Nat) :
    ∀ (s : State) (id : Nat), closuresOf s id < 4294967296 →
      closuresOf (dl.foldl (fun t i => drop_link i t) s) id =
        (closuresOf s id + dl.count id) % 4294967296 := by
  induction dl with
  | nil =>
    intro s id hc
    simp [Nat.mod_eq_of_lt hc]
  | cons i rest ih =>
    intro s id hc
    rw [List.foldl_cons]
    by_cases hi : i = id
    · have hstep : closuresOf (drop_link i s) id = (closuresOf s id + 1) % 4294967296 := by
        rw [closuresOf_drop_link, if_pos hi]
      have hlt : closuresOf (drop_link i s) id < 4294967296 := by
        rw [hstep]
        exact Nat.mod_lt _ (by norm_num)
      rw [ih (drop_link i s) id hlt, hstep, Nat.mod_add_mod, List.count_cons]
      congr 1
      simp [hi]
      omega
    · have hstep : closuresOf (drop_link i s) id = closuresOf s id := by
        rw [closuresOf_drop_link, if_neg hi]
      rw [ih (drop_link i s) id (by rw [hstep]; exact hc), hstep, List.count_cons]
      congr 1
      simp [hi]

theorem links_foldl_add_node (h : String → Nat) (l : List NodeDescriptor) (s : State) :
    (l.foldl (fun t nd => add_node h nd t) s).links = s.links := by
  induction l generalizing s with
  | nil => rfl
  | cons nd rest ih => simpa using ih (add_node h nd s)

theorem links_foldl_drop_node (l : List Nat) (s : State) :
    (l.foldl (fun t id => drop_node id t) s).links = s.links := by
  induction l generalizing s with
  | nil => rfl
  | cons id rest ih => simpa using ih (drop_node id s)

theorem closuresOf_foldl_add_link (hL : String → Nat) (l : List LinkDescriptor) (s : State)
    (id : Nat) :
    closuresOf (l.foldl (fun t ld => add_link hL ld t) s) id = closuresOf s id := by
  induction l generalizing s with
  | nil => rfl
  | cons ld rest ih => rw [List.foldl_cons, ih, closuresOf_add_link]

theorem closuresOf_update_map (h hL : String → Nat) (mu : MapUpdate) (s : State) (id : Nat)
    (hc : closuresOf s id < 4294967296) :
    closuresOf (update_map h hL mu s) id =
      (closuresOf s id + mu.drop_links.count id) % 4294967296 := by
  have hpre : closuresOf (mu.drop_nodes.foldl (fun t i => drop_node i t)
        (mu.add_links.foldl (fun t ld => add_link hL ld t)
          (mu.add_nodes.foldl (fun t nd => add_node h nd t) s))) id = closuresOf s id := by
    calc closuresOf (mu.drop_nodes.foldl (fun t i => drop_node i t)
        (mu.add_links.foldl (fun t ld => add_link hL ld t)
          (mu.add_nodes.foldl (fun t nd => add_node h nd t) s))) id
      = closuresOf (mu.add_links.foldl (fun t ld => add_link hL ld t)
          (mu.add_nodes.foldl (fun t nd => add_node h nd t) s)) id :=
        closuresOf_congr_links (links_foldl_drop_node _ _) id
    _ = closuresOf (mu.add_nodes.foldl (fun t nd => add_node h nd t) s) id :=
        closuresOf_foldl_add_link _ _ _ _
    _ = closuresOf s id := closuresOf_congr_links (links_foldl_add_node _ _ _) id
  unfold update_map
  rw [closuresOf_dropFold _ _ _ (by rw [hpre]; exact hc), hpre]

theorem closuresOf_applyOp (h hL : String → Nat) (op : Op) (s : State) (id : Nat)
    (hc : closuresOf s id < 4294967296) :
    closuresOf (applyOp h hL op s) id = (closuresOf s id + opDrops op id) % 4294967296 := by
  cases op with
  | addNode nd =>
    show closuresOf (add_node h nd s) id = (closuresOf s id + 0) % 4294967296
    rw [Nat.add_zero, Nat.mod_eq_of_lt hc]
    simp [closuresOf, add_node]
  | dropNode i =>
    show closuresOf (drop_node i s) id = (closuresOf s id + 0) % 4294967296
    rw [Nat.add_zero, Nat.mod_eq_of_lt hc]
    simp [closuresOf, drop_node]
  | addLink ld =>
    show closuresOf (add_link hL ld s) id = (closuresOf s id + 0) % 4294967296
    rw [Nat.add_zero, Nat.mod_eq_of_lt hc, closuresOf_add_link]
  | dropLink i =>
    show closuresOf (drop_link i s) id =
      (closuresOf s id + (if i = id then 1 else 0)) % 4294967296
    rw [closuresOf_drop_link]
    by_cases hi : i = id
    · rw [if_pos hi, if_pos hi]
    · rw [if_neg hi, if_neg hi, Nat.add_zero, Nat.mod_eq_of_lt hc]
  | updateMap mu =>
    exact closuresOf_update_map h hL mu s id hc
  | findRoute fuel f d =>
    show closuresOf (find_route fuel f d s).2 id = (closuresOf s id + 0) % 4294967296
    rw [Nat.add_zero, Nat.mod_eq_of_lt hc]
    exact closuresOf_congr_links (find_route_links fuel f d s) id
  | onBlock src blk sbp head pend =>
    show closuresOf (on_block_recv src blk sbp head pend s) id =
      (closuresOf s id + 0) % 4294967296
    rw [Nat.add_zero, Nat.mod_eq_of_lt hc]
    exact closuresOf_congr_links (on_block_recv_links src blk sbp head pend s) id
  | forward fuel tm li =>
    show closuresOf (forward_topology_message fuel tm li s).2 id =
      (closuresOf s id + 0) % 4294967296
    rw [Nat.add_zero, Nat.mod_eq_of_lt hc]
    exact closuresOf_forward fuel tm li s id

theorem closuresOf_applyOps (h hL : String → Nat) (ops : List Op) :
    ∀ (s : State) (id : Nat), closuresOf s id < 4294967296 →
      closuresOf (applyOps h hL ops s) id =
        (closuresOf s id + countDrops ops id) % 4294967296 := by
  induction ops with
  | nil =>
    intro s id hc
    simp [applyOps, countDrops, Nat.mod_eq_of_lt hc]
  | cons op rest ih =>
    intro s id hc
    have hstep := closuresOf_applyOp h hL op s id hc
    have hlt : closuresOf (applyOp h hL op s) id < 4294967296 := by
      rw [hstep]
      exact Nat.mod_lt _ (by norm_num)
    have heq : applyOps h hL (op :: rest) s = applyOps h hL rest (applyOp h hL op s) := rfl
    rw [heq, ih (applyOp h hL op s) id hlt, hstep, Nat.mod_add_mod]
    congr 1
    simp [countDrops]
    omega

/-- C7 (amended): for every sequence of operations from the initial state, each
link's `closures` counter equals the number of `drop_link` calls observed for
that link id reduced modulo 2^32 (the field is a `uint32_t` and wraps); and
`drop_link` never removes a record: after `drop_link i` a link id is present
exactly when it was present before or equals `i`. -/
theorem closure_accounting :
    (∀ (h hL : String → Nat) (ops : List Op) (id : Nat),
        closuresOf (applyOps h hL ops initState) id = countDrops ops id % 4294967296) ∧
    ∀ (s : State) (i j : Nat),
        (lookupM j (drop_link i s).links).isSome =
          ((lookupM j s.links).isSome || decide (j = i)) := by
  constructor
  · intro h hL ops id
    have h1 : closuresOf initState id = 0 := rfl
    rw [closuresOf_applyOps h hL ops initState id (by rw [h1]; norm_num), h1, Nat.zero_add]
  · intro s i j
    by_cases hji : j = i
    · subst hji
      show (lookupM j (setM j _ s.links)).isSome = _
      rw [lookup_setM_self]
      simp
    · show (lookupM j (setM i _ s.links)).isSome = _
      rw [lookup_setM_ne hji]
      simp [hji]

theorem countDrops_replicate (n : Nat) :
    countDrops (List.replicate n (Op.dropLink 5)) 5 = n := by
  induction n with
  | zero => rfl
  | succ m ih =>
    rw [List.replicate_succ]
    unfold countDrops at ih ⊢
    rw [List.map_cons, List.sum_cons, ih]
    simp [opDrops]
    omega

/-- Counterexample to C7 as literally stated: after 2^32 `drop_link(5)` calls
from the initial state the 32-bit `closures` counter has wrapped back to 0,
while the number of `drop_link` calls observed for id 5 is 2^32, so the counter
does not equal the drop count. -/
theorem closure_counter_wraps :
    closuresOf (applyOps (fun _ => 0) (fun _ => 0)
        (List.replicate 4294967296 (Op.dropLink 5)) initState) 5 = 0 ∧
    countDrops (List.replicate 4294967296 (Op.dropLink 5)) 5 = 4294967296 ∧
    closuresOf (applyOps (fun _ => 0) (fun _ => 0)
        (List.replicate 4294967296 (Op.dropLink 5)) initState) 5 ≠
      countDrops (List.replicate 4294967296 (Op.dropLink 5)) 5 := by
  have hcount := countDrops_replicate 4294967296
  have h1 : closuresOf initState 5 = 0 := rfl
  have hcl : closuresOf (applyOps (fun _ => 0) (fun _ => 0)
      (List.replicate 4294967296 (Op.dropLink 5)) initState) 5 = 0 := by
    rw [closuresOf_applyOps (fun _ => 0) (fun _ => 0) _ initState 5 (by rw [h1]; norm_num),
      h1, hcount, Nat.zero_add, Nat.mod_self]
  exact ⟨hcl, hcount, by rw [hcl, hcount]; norm_num⟩

theorem update_map_eq (h hL : String → Nat) (mu : MapUpdate) (s : State) :
    update_map h hL mu s =
      dlFold mu.drop_links (dnFold mu.drop_nodes (alFold hL mu.add_links (anFold h mu.add_nodes s))) :=
  rfl

theorem add_node_eq (h : String → Nat) (nd : NodeDescriptor) (s : State) :
    add_node h nd s = { s with nodes := insertNewM (anId h nd) (mkTopoNode (ndFix h nd)) s.nodes } := by
  unfold add_node anId ndFix
  by_cases h0 : nd.my_id = 0 <;> simp [h0]

theorem insertSorted_idem (k : Nat) (l : List Nat) :
    insertSorted k (insertSorted k l) = insertSorted k l := by
  induction l with
  | nil => simp [insertSorted]
  | cons a t ih =>
    by_cases h1 : k < a
    · simp [insertSorted, h1, lt_irrefl]
    · by_cases h2 : k = a
      · subst h2
        simp [insertSorted, lt_irrefl]
      · rw [insertSorted, if_neg h1, if_neg h2, insertSorted, if_neg h1, if_neg h2, ih]

theorem insertSorted_self_cons {a c : Nat} {t : List Nat}
    (hy : insertSorted a (c :: t) = c :: t) :
    a = c ∨ (c < a ∧ insertSorted a t = t) := by
  by_cases h1 : a < c
  · rw [insertSorted, if_pos h1] at hy
    exact absurd (congrArg List.length hy) (by simp)
  · by_cases h2 : a = c
    · exact Or.inl h2
    · right
      refine ⟨by omega, ?_⟩
      rw [insertSorted, if_neg h1, if_neg h2] at hy
      exact (List.cons.inj hy).2

theorem insertSorted_absorb_mono (a b : Nat) :
    ∀ y : List Nat, insertSorted a y = y → insertSorted a (insertSorted b y) = insertSorted b y := by
  intro y
  induction y with
  | nil => intro hy; simp [insertSorted] at hy
  | cons c t ih =>
    intro hy
    rcases insertSorted_self_cons hy with h2 | ⟨hca, hyt⟩
    · subst h2
      by_cases hb1 : b < a
      · rw [show insertSorted b (a :: t) = b :: a :: t from by rw [insertSorted, if_pos hb1]]
        rw [insertSorted, if_neg (by omega : ¬ a < b), if_neg (by omega : ¬ a = b),
            insertSorted, if_neg (lt_irrefl a), if_pos rfl]
      · by_cases hb2 : b = a
        · subst hb2
          rw [show insertSorted b (b :: t) = b :: t from by
                rw [insertSorted, if_neg (lt_irrefl b), if_pos rfl]]
          rw [insertSorted, if_neg (lt_irrefl b), if_pos rfl]
        · rw [show insertSorted b (a :: t) = a :: insertSorted b t from by
                rw [insertSorted, if_neg (by omega : ¬ b < a), if_neg hb2]]
          rw [insertSorted, if_neg (lt_irrefl a), if_pos rfl]
    · by_cases hb1 : b < c
      · rw [show insertSorted b (c :: t) = b :: c :: t from by rw [insertSorted, if_pos hb1]]
        rw [insertSorted, if_neg (by omega : ¬ a < b), if_neg (by omega : ¬ a = b), hy]
      · by_cases hb2 : b = c
        · rw [show insertSorted b (c :: t) = c :: t from by
                rw [insertSorted, if_neg hb1, if_pos hb2]]
          exact hy
        · rw [show insertSorted b (c :: t) = c :: insertSorted b t from by
                rw [insertSorted, if_neg hb1, if_neg hb2]]
          rw [insertSorted, if_neg (by omega : ¬ a < c), if_neg (by omega : ¬ a = c), ih hyt]

theorem map_eq_self {α : Type} {l : List α} {f : α → α} (h : ∀ e ∈ l, f e = e) :
    l.map f = l := by
  induction l with
  | nil => rfl
  | cons e t ih =>
    rw [List.map_cons, h e (by simp), ih (fun x hx => h x (by simp [hx]))]

theorem registerLink_other (endp lid : Nat) (s : State) :
    projOther (registerLink endp lid s) = projOther s := by
  unfold registerLink
  split <;> rfl

theorem add_link_other (hL : String → Nat) (ld : LinkDescriptor) (s : State) :
    projOther (add_link hL ld s) = projOther s := by
  show projOther (registerLink ld.passive (gen_id_link hL ld)
      (registerLink ld.active (gen_id_link hL ld) s)) = projOther s
  rw [registerLink_other, registerLink_other]

theorem anFold_other (h : String → Nat) (l : List NodeDescriptor) (s : State) :
    projOther (anFold h l s) = projOther s := by
  induction l generalizing s with
  | nil => rfl
  | cons nd rest ih => simpa [anFold] using ih (add_node h nd s)

theorem alFold_other (hL : String → Nat) (l : List LinkDescriptor) (s : State) :
    projOther (alFold hL l s) = projOther s := by
  induction l generalizing s with
  | nil => rfl
  | cons ld rest ih =>
    calc projOther (alFold hL (ld :: rest) s) = projOther (alFold hL rest (add_link hL ld s)) := rfl
      _ = projOther (add_link hL ld s) := ih _
      _ = projOther s := add_link_other _ _ _

theorem dnFold_other (l : List Nat) (s : State) :
    projOther (dnFold l s) = projOther s := by
  induction l generalizing s with
  | nil => rfl
  | cons i rest ih => simpa [dnFold] using ih (drop_node i s)

theorem anFold_links (h : String → Nat) (l : List NodeDescriptor) (s : State) :
    (anFold h l s).links = s.links :=
  links_foldl_add_node h l s

theorem dnFold_links (l : List Nat) (s : State) :
    (dnFold l s).links = s.links :=
  links_foldl_drop_node l s

theorem isSome_lookup_cons {κ : Type} [DecidableEq κ] {α : Type} {k : κ} {l : List (κ × α)}
    (e : κ × α) (h : (lookupM k l).isSome) : (lookupM k (e :: l)).isSome := by
  rw [lookupM_cons]
  by_cases he : e.1 = k <;> simp [he, h]

theorem isSome_insertNewM {κ : Type} [DecidableEq κ] {α : Type} {k' : κ} {l : List (κ × α)}
    (k : κ) (v : α) (h : (lookupM k' l).isSome) : (lookupM k' (insertNewM k v l)).isSome := by
  unfold insertNewM
  cases hl : lookupM k l with
  | some w => exact h
  | none => exact isSome_lookup_cons _ h

theorem isSome_modifyM {κ : Type} [DecidableEq κ] {α : Type} (k' k : κ) (f : α → α)
    (l : List (κ × α)) :
    (lookupM k' (modifyM k f l)).isSome = (lookupM k' l).isSome := by
  by_cases h : k' = k
  · subst h
    rw [lookup_modifyM_self]
    cases hl : lookupM k' l <;> rfl
  · rw [lookup_modifyM_ne h]

theorem modifyM_keys {κ : Type} [DecidableEq κ] {α : Type} (k : κ) (f : α → α)
    (l : List (κ × α)) :
    (modifyM k f l).map Prod.fst = l.map Prod.fst := by
  induction l with
  | nil => rfl
  | cons e t ih =>
    by_cases he : e.1 = k <;> simp [modifyM_cons, he, ih]

theorem anFold_split (h : String → Nat) (dn : List Nat) :
    ∀ (l : List NodeDescriptor) (s : State),
      (∀ nd ∈ l, anId h nd ∈ dn ∨ (lookupM (anId h nd) s.nodes).isSome) →
      ∃ ex : List (Nat × TopoNode),
        anFold h l s = { s with nodes := ex ++ s.nodes } ∧ ∀ e ∈ ex, e.1 ∈ dn := by
  intro l
  induction l with
  | nil =>
    intro s _
    exact ⟨[], rfl, by simp⟩
  | cons nd rest ih =>
    intro s H
    have hstep : anFold h (nd :: rest) s = anFold h rest (add_node h nd s) := rfl
    cases hl : lookupM (anId h nd) s.nodes with
    | some w =>
      have hadd : add_node h nd s = s := by
        rw [add_node_eq]
        simp [insertNewM, hl]
      rw [hstep, hadd]
      exact ih s (fun nd' hmem => H nd' (List.mem_cons_of_mem _ hmem))
    | none =>
      have ha : anId h nd ∈ dn := by
        rcases H nd (by simp) with hin | hsome
        · exact hin
        · rw [hl] at hsome
          simp at hsome
      have hadd : add_node h nd s =
          { s with nodes := (anId h nd, mkTopoNode (ndFix h nd)) :: s.nodes } := by
        rw [add_node_eq]
        simp [insertNewM, hl]
      have H' : ∀ nd' ∈ rest, anId h nd' ∈ dn ∨
          (lookupM (anId h nd')
            ({ s with nodes := (anId h nd, mkTopoNode (ndFix h nd)) :: s.nodes } : State).nodes).isSome := by
        intro nd' hmem
        rcases H nd' (List.mem_cons_of_mem _ hmem) with hin | hsome
        · exact Or.inl hin
        · exact Or.inr (isSome_lookup_cons _ hsome)
      obtain ⟨ex, heq, hmem⟩ :=
        ih { s with nodes := (anId h nd, mkTopoNode (ndFix h nd)) :: s.nodes } H'
      refine ⟨ex ++ [(anId h nd, mkTopoNode (ndFix h nd))], ?_, ?_⟩
      · rw [hstep, hadd, heq]
        simp [List.append_assoc]
      · intro e he
        rcases List.mem_append.mp he with h1 | h2
        · exact hmem e h1
        · simp only [List.mem_singleton] at h2
          rw [h2]
          exact ha

theorem registerLink_nodes (e i : Nat) (u : State) :
    (registerLink e i u).nodes = u.nodes ∨
    (registerLink e i u).nodes = modifyM e (fun n => { n with links := insertSorted i n.links }) u.nodes := by
  unfold registerLink
  split
  · exact Or.inr rfl
  · exact Or.inl rfl

theorem registerLink_split (tn : List (Nat × TopoNode)) (endp i : Nat) (v : State)
    (exv : List (Nat × TopoNode)) (hv : v.nodes = exv ++ tn)
    (habs : ∀ e ∈ tn, e.1 = endp → insertSorted i e.2.links = e.2.links) :
    ∃ exw, (registerLink endp i v).nodes = exw ++ tn ∧
      exw.map Prod.fst = exv.map Prod.fst := by
  rcases registerLink_nodes endp i v with hr | hr
  · exact ⟨exv, by rw [hr, hv], rfl⟩
  · refine ⟨modifyM endp (fun n => { n with links := insertSorted i n.links }) exv, ?_, modifyM_keys _ _ _⟩
    rw [hr, hv]
    unfold modifyM
    rw [List.map_append]
    congr 1
    apply map_eq_self
    intro e he
    by_cases hk : e.1 = endp
    · rw [if_pos hk]
      simp only []
      rw [habs e he hk, ← hk]
    · rw [if_neg hk]

theorem add_link_nodes_split (hL : String → Nat) (tn : List (Nat × TopoNode))
    (ld : LinkDescriptor) (u : State) (ex : List (Nat × TopoNode)) (hu : u.nodes = ex ++ tn)
    (habsA : ∀ e ∈ tn, e.1 = ld.active → insertSorted (gen_id_link hL ld) e.2.links = e.2.links)
    (habsP : ∀ e ∈ tn, e.1 = ld.passive → insertSorted (gen_id_link hL ld) e.2.links = e.2.links) :
    ∃ ex1, (add_link hL ld u).nodes = ex1 ++ tn ∧ ex1.map Prod.fst = ex.map Prod.fst := by
  obtain ⟨exA, hA, hAk⟩ := registerLink_split tn ld.active (gen_id_link hL ld) u ex hu habsA
  obtain ⟨exB, hB, hBk⟩ := registerLink_split tn ld.passive (gen_id_link hL ld)
    (registerLink ld.active (gen_id_link hL ld) u) exA hA habsP
  refine ⟨exB, ?_, hBk.trans hAk⟩
  show (registerLink ld.passive (gen_id_link hL ld)
      (registerLink ld.active (gen_id_link hL ld) u)).nodes = exB ++ tn
  exact hB

theorem alFold_nodes_split (hL : String → Nat) (tn : List (Nat × TopoNode)) :
    ∀ (l : List LinkDescriptor) (ex : List (Nat × TopoNode)) (u : State),
      u.nodes = ex ++ tn →
      (∀ ld ∈ l, ∀ e ∈ tn, (e.1 = ld.active ∨ e.1 = ld.passive) →
          insertSorted (gen_id_link hL ld) e.2.links = e.2.links) →
      ∃ ex', (alFold hL l u).nodes = ex' ++ tn ∧ ex'.map Prod.fst = ex.map Prod.fst := by
  intro l
  induction l with
  | nil => intro ex u hu _; exact ⟨ex, hu, rfl⟩
  | cons ld rest ih =>
    intro ex u hu H
    obtain ⟨ex1, h1, h1k⟩ := add_link_nodes_split hL tn ld u ex hu
      (fun e he hk => H ld (by simp) e he (Or.inl hk))
      (fun e he hk => H ld (by simp) e he (Or.inr hk))
    obtain ⟨ex', h2, h2k⟩ := ih ex1 (add_link hL ld u) h1
      (fun ld' hm => H ld' (List.mem_cons_of_mem _ hm))
    exact ⟨ex', h2, h2k.trans h1k⟩

theorem alFold_links_noop (hL : String → Nat) :
    ∀ (l : List LinkDescriptor) (u : State),
      (∀ ld ∈ l, (lookupM (gen_id_link hL ld) u.links).isSome) →
      (alFold hL l u).links = u.links := by
  intro l
  induction l with
  | nil => intro u _; rfl
  | cons ld rest ih =>
    intro u H
    have hstep : (add_link hL ld u).links = u.links := by
      show insertNewM (gen_id_link hL ld)
        ⟨{ ld with my_id := gen_id_link hL ld }, 0⟩
        ((registerLink ld.passive (gen_id_link hL ld)
          (registerLink ld.active (gen_id_link hL ld) u)).links) = u.links
      rw [registerLink_links, registerLink_links]
      have hex := H ld (by simp)
      cases hl : lookupM (gen_id_link hL ld) u.links with
      | some w => simp [insertNewM, hl]
      | none =>
        rw [hl] at hex
        simp at hex
    rw [show alFold hL (ld :: rest) u = alFold hL rest (add_link hL ld u) from rfl,
        ih (add_link hL ld u) (fun ld' hm => by rw [hstep]; exact H ld' (List.mem_cons_of_mem _ hm)),
        hstep]

theorem dnFold_nodes :
    ∀ (l : List Nat) (s : State),
      (dnFold l s).nodes = s.nodes.filter (fun e => !(decide (e.1 ∈ l))) := by
  intro l
  induction l with
  | nil =>
    intro s
    simp [dnFold]
  | cons i rest ih =>
    intro s
    rw [show dnFold (i :: rest) s = dnFold rest (drop_node i s) from rfl, ih]
    show (eraseM i s.nodes).filter _ = _
    unfold eraseM
    rw [List.filter_filter]
    apply List.filter_congr
    intro e _
    by_cases h1 : e.1 = i <;> by_cases h2 : e.1 ∈ rest <;> simp [h1, h2]

theorem lookupM_filter_key {κ : Type} [DecidableEq κ] {α : Type} (q : κ → Bool) (k : κ)
    (l : List (κ × α)) :
    lookupM k (l.filter (fun e => q e.1)) = if q k then lookupM k l else none := by
  induction l with
  | nil => cases hq : q k <;> simp [lookupM, hq]
  | cons e t ih =>
    by_cases he : e.1 = k
    · subst he
      cases hq : q e.1 <;> simp [lookupM_cons, hq, ih]
    · cases hq : q e.1 <;> simp [lookupM_cons, hq, he, ih]

theorem anFold_isSome_mono (h : String → Nat) :
    ∀ (l : List NodeDescriptor) (s : State) (k : Nat),
      (lookupM k s.nodes).isSome → (lookupM k (anFold h l s).nodes).isSome := by
  intro l
  induction l with
  | nil => intro s k hk; exact hk
  | cons nd rest ih =>
    intro s k hk
    refine ih (add_node h nd s) k ?_
    rw [add_node_eq]
    exact isSome_insertNewM _ _ hk

theorem anFold_mem (h : String → Nat) :
    ∀ (l : List NodeDescriptor) (s : State) (nd : NodeDescriptor), nd ∈ l →
      (lookupM (anId h nd) (anFold h l s).nodes).isSome := by
  intro l
  induction l with
  | nil => intro s nd hm; cases hm
  | cons nd0 rest ih =>
    intro s nd hm
    rcases List.mem_cons.mp hm with rfl | hm'
    · refine anFold_isSome_mono h rest (add_node h nd s) _ ?_
      rw [add_node_eq]
      show (lookupM (anId h nd) (insertNewM (anId h nd) (mkTopoNode (ndFix h nd)) s.nodes)).isSome
      rw [lookup_insertNewM_self]
      rfl
    · exact ih (add_node h nd0 s) nd hm'

theorem registerLink_isSome (endp i : Nat) (u : State) (k : Nat) :
    (lookupM k (registerLink endp i u).nodes).isSome = (lookupM k u.nodes).isSome := by
  rcases registerLink_nodes endp i u with hr | hr
  · rw [hr]
  · rw [hr, isSome_modifyM]

theorem add_link_nodes_isSome (hL : String → Nat) (ld : LinkDescriptor) (u : State) (k : Nat) :
    (lookupM k (add_link hL ld u).nodes).isSome = (lookupM k u.nodes).isSome := by
  show (lookupM k (registerLink ld.passive (gen_id_link hL ld)
      (registerLink ld.active (gen_id_link hL ld) u)).nodes).isSome = _
  rw [registerLink_isSome, registerLink_isSome]

theorem alFold_nodes_isSome (hL : String → Nat) :
    ∀ (l : List LinkDescriptor) (u : State) (k : Nat),
      (lookupM k (alFold hL l u).nodes).isSome = (lookupM k u.nodes).isSome := by
  intro l
  induction l with
  | nil => intro u k; rfl
  | cons ld rest ih =>
    intro u k
    rw [show alFold hL (ld :: rest) u = alFold hL rest (add_link hL ld u) from rfl,
        ih (add_link hL ld u) k, add_link_nodes_isSome]

theorem add_link_links (hL : String → Nat) (ld : LinkDescriptor) (u : State) :
    (add_link hL ld u).links =
      insertNewM (gen_id_link hL ld) ⟨{ ld with my_id := gen_id_link hL ld }, 0⟩ u.links := by
  show insertNewM (gen_id_link hL ld) ⟨{ ld with my_id := gen_id_link hL ld }, 0⟩
      ((registerLink ld.passive (gen_id_link hL ld)
        (registerLink ld.active (gen_id_link hL ld) u)).links) = _
  rw [registerLink_links, registerLink_links]

theorem alFold_links_isSome_mono (hL : String → Nat) :
    ∀ (l : List LinkDescriptor) (u : State) (k : Nat),
      (lookupM k u.links).isSome → (lookupM k (alFold hL l u).links).isSome := by
  intro l
  induction l with
  | nil => intro u k hk; exact hk
  | cons ld rest ih =>
    intro u k hk
    refine ih (add_link hL ld u) k ?_
    rw [add_link_links]
    exact isSome_insertNewM _ _ hk

theorem alFold_mem (hL : String → Nat) :
    ∀ (l : List LinkDescriptor) (u : State) (ld : LinkDescriptor), ld ∈ l →
      (lookupM (gen_id_link hL ld) (alFold hL l u).links).isSome := by
  intro l
  induction l with
  | nil => intro u ld hm; cases hm
  | cons ld0 rest ih =>
    intro u ld hm
    rcases List.mem_cons.mp hm with rfl | hm'
    · refine alFold_links_isSome_mono hL rest (add_link hL ld u) _ ?_
      rw [add_link_links, lookup_insertNewM_self]
      rfl
    · exact ih (add_link hL ld0 u) ld hm'

theorem modifyM_mem {κ : Type} [DecidableEq κ] {α : Type} {e' : κ × α} {k : κ} {f : α → α}
    {l : List (κ × α)} (hm : e' ∈ modifyM k f l) :
    ∃ e ∈ l, e' = if e.1 = k then (k, f e.2) else e := by
  obtain ⟨e, he, hfe⟩ := List.mem_map.mp hm
  exact ⟨e, he, hfe.symm⟩

theorem absorb_pres_registerLink (endp i : Nat) (u : State) (pk j : Nat)
    (hP : ∀ e ∈ u.nodes, e.1 = pk → insertSorted j e.2.links = e.2.links) :
    ∀ e ∈ (registerLink endp i u).nodes, e.1 = pk → insertSorted j e.2.links = e.2.links := by
  intro e' he' hk
  rcases registerLink_nodes endp i u with hr | hr
  · rw [hr] at he'
    exact hP e' he' hk
  · rw [hr] at he'
    obtain ⟨e, he, hee⟩ := modifyM_mem he'
    by_cases hek : e.1 = endp
    · rw [if_pos hek] at hee
      subst hee
      simp only [] at hk ⊢
      exact insertSorted_absorb_mono j i e.2.links (hP e he (hek.trans hk))
    · rw [if_neg hek] at hee
      subst hee
      exact hP e' he hk

theorem absorb_establish_registerLink (endp i : Nat) (u : State) :
    ∀ e ∈ (registerLink endp i u).nodes, e.1 = endp →
      insertSorted i e.2.links = e.2.links := by
  intro e' he' hk
  cases hl : lookupM endp u.nodes with
  | none =>
    have hid : registerLink endp i u = u := by
      simp [registerLink, hl]
    rw [hid] at he'
    exact absurd hk (lookupM_eq_none.mp hl e' he')
  | some w =>
    have hmod : (registerLink endp i u).nodes =
        modifyM endp (fun n => { n with links := insertSorted i n.links }) u.nodes := by
      simp [registerLink, hl]
    rw [hmod] at he'
    obtain ⟨e, he, hee⟩ := modifyM_mem he'
    by_cases hek : e.1 = endp
    · rw [if_pos hek] at hee
      subst hee
      simp only []
      exact insertSorted_idem i e.2.links
    · rw [if_neg hek] at hee
      subst hee
      exact absurd hk hek

theorem add_link_absorb_self (hL : String → Nat) (ld : LinkDescriptor) (u : State) :
    ∀ e ∈ (add_link hL ld u).nodes, (e.1 = ld.active ∨ e.1 = ld.passive) →
      insertSorted (gen_id_link hL ld) e.2.links = e.2.links := by
  intro e he hor
  have he' : e ∈ (registerLink ld.passive (gen_id_link hL ld)
      (registerLink ld.active (gen_id_link hL ld) u)).nodes := he
  rcases hor with hk | hk
  · exact absorb_pres_registerLink ld.passive (gen_id_link hL ld) _ ld.active (gen_id_link hL ld)
      (absorb_establish_registerLink ld.active (gen_id_link hL ld) u) e he' hk
  · exact absorb_establish_registerLink ld.passive (gen_id_link hL ld) _ e he' hk

theorem add_link_absorb_pres (hL : String → Nat) (ld : LinkDescriptor) (u : State) (pk j : Nat)
    (hP : ∀ e ∈ u.nodes, e.1 = pk → insertSorted j e.2.links = e.2.links) :
    ∀ e ∈ (add_link hL ld u).nodes, e.1 = pk → insertSorted j e.2.links = e.2.links := by
  intro e he hk
  have he' : e ∈ (registerLink ld.passive (gen_id_link hL ld)
      (registerLink ld.active (gen_id_link hL ld) u)).nodes := he
  exact absorb_pres_registerLink ld.passive (gen_id_link hL ld) _ pk j
    (absorb_pres_registerLink ld.active (gen_id_link hL ld) u pk j hP) e he' hk

theorem alFold_absorb_pres (hL : String → Nat) :
    ∀ (l : List LinkDescriptor) (u : State) (pk j : Nat),
      (∀ e ∈ u.nodes, e.1 = pk → insertSorted j e.2.links = e.2.links) →
      ∀ e ∈ (alFold hL l u).nodes, e.1 = pk → insertSorted j e.2.links = e.2.links := by
  intro l
  induction l with
  | nil => intro u pk j hP; exact hP
  | cons ld rest ih =>
    intro u pk j hP
    exact ih (add_link hL ld u) pk j (add_link_absorb_pres hL ld u pk j hP)

theorem alFold_absorb (hL : String → Nat) :
    ∀ (l : List LinkDescriptor) (u : State) (ld : LinkDescriptor), ld ∈ l →
      ∀ e ∈ (alFold hL l u).nodes, (e.1 = ld.active ∨ e.1 = ld.passive) →
        insertSorted (gen_id_link hL ld) e.2.links = e.2.links := by
  intro l
  induction l with
  | nil => intro u ld hm; cases hm
  | cons ld0 rest ih =>
    intro u ld hm e he hor
    rcases List.mem_cons.mp hm with rfl | hm'
    · rcases hor with hk | hk
      · exact alFold_absorb_pres hL rest (add_link hL ld u) ld.active (gen_id_link hL ld)
          (fun e' he' hk' => add_link_absorb_self hL ld u e' he' (Or.inl hk')) e he hk
      · exact alFold_absorb_pres hL rest (add_link hL ld u) ld.passive (gen_id_link hL ld)
          (fun e' he' hk' => add_link_absorb_self hL ld u e' he' (Or.inr hk')) e he hk
    · exact ih (add_link hL ld0 u) ld hm' e he hor

theorem state_ext {s1 s2 : State} (hn : s1.nodes = s2.nodes) (hl : s1.links = s2.links)
    (ho : projOther s1 = projOther s2) : s1 = s2 := by
  cases s1
  cases s2
  simp [projOther] at hn hl ho ⊢
  exact ⟨hn, hl, ho.1, ho.2.1, ho.2.2.1, ho.2.2.2.1, ho.2.2.2.2⟩

theorem fixpoint_apply (h hL : String → Nat) (mu : MapUpdate) (t : State)
    (f1 : ∀ e ∈ t.nodes, e.1 ∉ mu.drop_nodes)
    (f2 : ∀ nd ∈ mu.add_nodes, anId h nd ∈ mu.drop_nodes ∨ (lookupM (anId h nd) t.nodes).isSome)
    (f3 : ∀ ld ∈ mu.add_links, (lookupM (gen_id_link hL ld) t.links).isSome)
    (f4 : ∀ ld ∈ mu.add_links, ∀ e ∈ t.nodes, (e.1 = ld.active ∨ e.1 = ld.passive) →
        insertSorted (gen_id_link hL ld) e.2.links = e.2.links)
    (hdl : mu.drop_links = []) :
    update_map h hL mu t = t := by
  rw [update_map_eq, hdl]
  show dnFold mu.drop_nodes (alFold hL mu.add_links (anFold h mu.add_nodes t)) = t
  obtain ⟨ex, han, hex⟩ := anFold_split h mu.drop_nodes mu.add_nodes t f2
  have hu1n : (anFold h mu.add_nodes t).nodes = ex ++ t.nodes := by rw [han]
  obtain ⟨ex2, haln, hexk⟩ :=
    alFold_nodes_split hL t.nodes mu.add_links ex (anFold h mu.add_nodes t) hu1n f4
  have hu2l : (alFold hL mu.add_links (anFold h mu.add_nodes t)).links = t.links := by
    rw [alFold_links_noop hL mu.add_links (anFold h mu.add_nodes t)
        (fun ld hm => by rw [anFold_links]; exact f3 ld hm),
      anFold_links]
  refine state_ext ?_ ?_ ?_
  · rw [dnFold_nodes, haln, List.filter_append]
    have e1 : ex2.filter (fun e => !(decide (e.1 ∈ mu.drop_nodes))) = [] := by
      rw [List.filter_eq_nil_iff]
      intro e he
      have hkm : e.1 ∈ ex.map Prod.fst := by
        rw [← hexk]
        exact List.mem_map_of_mem _ he
      obtain ⟨e0, he0, hk0⟩ := List.mem_map.mp hkm
      have hin := hex e0 he0
      rw [hk0] at hin
      simp [hin]
    have e2 : t.nodes.filter (fun e => !(decide (e.1 ∈ mu.drop_nodes))) = t.nodes := by
      rw [List.filter_eq_self]
      intro e he
      simp [f1 e he]
    rw [e1, e2, List.nil_append]
  · rw [dnFold_links, hu2l]
  · rw [dnFold_other, alFold_other, anFold_other]

theorem update_map_f1 (h hL : String → Nat) (mu : MapUpdate) (s : State)
    (hdl : mu.drop_links = []) :
    ∀ e ∈ (update_map h hL mu s).nodes, e.1 ∉ mu.drop_nodes := by
  intro e he
  rw [update_map_eq, hdl] at he
  have he' : e ∈ (dnFold mu.drop_nodes (alFold hL mu.add_links (anFold h mu.add_nodes s))).nodes := he
  rw [dnFold_nodes] at he'
  have := List.of_mem_filter he'
  simpa using this

theorem update_map_f2 (h hL : String → Nat) (mu : MapUpdate) (s : State)
    (hdl : mu.drop_links = []) :
    ∀ nd ∈ mu.add_nodes, anId h nd ∈ mu.drop_nodes ∨
      (lookupM (anId h nd) (update_map h hL mu s).nodes).isSome := by
  intro nd hm
  by_cases hdn : anId h nd ∈ mu.drop_nodes
  · exact Or.inl hdn
  · right
    rw [update_map_eq, hdl]
    show (lookupM (anId h nd)
      (dnFold mu.drop_nodes (alFold hL mu.add_links (anFold h mu.add_nodes s))).nodes).isSome
    rw [dnFold_nodes, lookupM_filter_key (fun x => !(decide (x ∈ mu.drop_nodes)))]
    rw [if_pos (by simp [hdn])]
    rw [alFold_nodes_isSome]
    exact anFold_mem h mu.add_nodes s nd hm

theorem update_map_f3 (h hL : String → Nat) (mu : MapUpdate) (s : State)
    (hdl : mu.drop_links = []) :
    ∀ ld ∈ mu.add_links, (lookupM (gen_id_link hL ld) (update_map h hL mu s).links).isSome := by
  intro ld hm
  rw [update_map_eq, hdl]
  show (lookupM (gen_id_link hL ld)
    (dnFold mu.drop_nodes (alFold hL mu.add_links (anFold h mu.add_nodes s))).links).isSome
  rw [dnFold_links]
  exact alFold_mem hL mu.add_links (anFold h mu.add_nodes s) ld hm

theorem update_map_f4 (h hL : String → Nat) (mu : MapUpdate) (s : State)
    (hdl : mu.drop_links = []) :
    ∀ ld ∈ mu.add_links, ∀ e ∈ (update_map h hL mu s).nodes,
      (e.1 = ld.active ∨ e.1 = ld.passive) →
      insertSorted (gen_id_link hL ld) e.2.links = e.2.links := by
  intro ld hm e he hor
  rw [update_map_eq, hdl] at he
  have he' : e ∈ (dnFold mu.drop_nodes (alFold hL mu.add_links (anFold h mu.add_nodes s))).nodes := he
  rw [dnFold_nodes] at he'
  exact alFold_absorb hL mu.add_links (anFold h mu.add_nodes s) ld hm e
    (List.mem_of_mem_filter he') hor

/-- C3 amended: for a map delta with no link drops, applying `update_map`
twice from any starting state leaves the whole state — node and link tables,
sizes and contents — identical to one application; with link drops the
second application increments the dropped links' closure counters again
(see the counterexample), so idempotence holds exactly up to that. -/
theorem update_map_idem (h hL : String → Nat) (mu : MapUpdate) (s : State)
    (hdl : mu.drop_links = []) :
    update_map h hL mu (update_map h hL mu s) = update_map h hL mu s :=
  fixpoint_apply h hL mu (update_map h hL mu s)
    (update_map_f1 h hL mu s hdl) (update_map_f2 h hL mu s hdl)
    (update_map_f3 h hL mu s hdl) (update_map_f4 h hL mu s hdl) hdl

/-- Witness for the amended C3 at a concrete delta and state. -/
theorem update_map_idem_witness :
    idemMU.drop_links = [] ∧
    update_map (fun _ => 1) (fun _ => 2) idemMU
        (update_map (fun _ => 1) (fun _ => 2) idemMU initState) =
      update_map (fun _ => 1) (fun _ => 2) idemMU initState :=
  ⟨rfl, update_map_idem (fun _ => 1) (fun _ => 2) idemMU initState rfl⟩

theorem routePure_refl (dst : Nat) {s : State} (hc : Clean s dst) : RoutePure dst s s :=
  ⟨hc, fun _ => rfl, rfl⟩

theorem routePure_trans {dst : Nat} {s s' s'' : State}
    (h1 : RoutePure dst s s') (h2 : RoutePure dst s' s'') : RoutePure dst s s'' :=
  ⟨h2.1, fun u => (h2.2.1 u).trans (h1.2.1 u), h2.2.2.trans h1.2.2⟩

theorem Edge_eq {s s' : State} (hadj : ∀ u, adjData s' u = adjData s u)
    (hl : s'.links = s.links) : Edge s' = Edge s := by
  funext u v
  unfold Edge
  rw [hadj u, hl]

theorem Reach_eq {s s' : State} (hadj : ∀ u, adjData s' u = adjData s u)
    (hl : s'.links = s.links) : Reach s' = Reach s := by
  unfold Reach
  rw [Edge_eq hadj hl]

theorem getNodeD_adj (id : Nat) (s : State) (u : Nat) :
    adjData (getNodeD id s).2 u = adjData s u := by
  unfold getNodeD
  cases hl : lookupM id s.nodes with
  | some n => rfl
  | none =>
    by_cases hu : id = u
    · subst hu
      simp [adjData, lookupM_cons, hl, defaultTopoNode, defaultNodeDesc]
    · simp [adjData, lookupM_cons, hu]

theorem getNodeD_clean (id : Nat) (s : State) (d : Nat) (h : Clean s d) :
    Clean (getNodeD id s).2 d := by
  unfold getNodeD
  cases hl : lookupM id s.nodes with
  | some n => exact h
  | none =>
    intro u n hu rd hrd
    rw [lookupM_cons] at hu
    by_cases hiu : id = u
    · rw [if_pos hiu] at hu
      cases hu
      simp [defaultTopoNode, lookupM] at hrd
    · rw [if_neg hiu] at hu
      exact h u n hu rd hrd

theorem getNodeD_fst (id : Nat) (s : State) :
    ((getNodeD id s).1.info.my_id, (getNodeD id s).1.links) = adjData s id := by
  unfold getNodeD adjData
  cases hl : lookupM id s.nodes with
  | some n => rfl
  | none => rfl

theorem getNodeD_pure (id : Nat) (s : State) (d : Nat) (h : Clean s d) :
    RoutePure d s (getNodeD id s).2 :=
  ⟨getNodeD_clean id s d h, getNodeD_adj id s, getNodeD_links id s⟩

theorem getRouteD_fst (nid d : Nat) (s : State) (h : Clean s d) :
    (getRouteD nid d s).1 = defaultRoute := by
  unfold getRouteD
  cases hl : lookupM nid s.nodes with
  | none => rfl
  | some n =>
    show (lookupM d n.routes).getD defaultRoute = defaultRoute
    cases hrd : lookupM d n.routes with
    | none => rfl
    | some rd => simpa using h nid n hl rd hrd

theorem adjData_update_routes (s : State) (nid : Nat) (f : TopoNode → TopoNode)
    (hf : ∀ m, (f m).info = m.info ∧ (f m).links = m.links) (u : Nat) :
    adjData { s with nodes := modifyM nid f s.nodes } u = adjData s u := by
  show (match lookupM u (modifyM nid f s.nodes) with
        | some n => (n.info.my_id, n.links)
        | none => (0, [])) =
      (match lookupM u s.nodes with
        | some n => (n.info.my_id, n.links)
        | none => (0, []))
  by_cases hu : u = nid
  · subst hu
    rw [lookup_modifyM_self]
    cases hn : lookupM u s.nodes with
    | none => rfl
    | some m => simp [(hf m).1, (hf m).2]
  · rw [lookup_modifyM_ne hu]

theorem getRouteD_adj (nid d : Nat) (s : State) (u : Nat) :
    adjData (getRouteD nid d s).2 u = adjData s u := by
  unfold getRouteD
  cases hl : lookupM nid s.nodes with
  | none => rfl
  | some n =>
    exact adjData_update_routes s nid
      (fun m => { m with routes := ensureM defaultRoute d m.routes }) (fun m => ⟨rfl, rfl⟩) u

theorem getRouteD_clean (nid d : Nat) (s : State) (h : Clean s d) :
    Clean (getRouteD nid d s).2 d := by
  unfold getRouteD
  cases hl : lookupM nid s.nodes with
  | none => exact h
  | some n =>
    intro u m hu rd hrd
    have hu' : lookupM u (modifyM nid
        (fun m => { m with routes := ensureM defaultRoute d m.routes }) s.nodes) = some m := hu
    by_cases hun : u = nid
    · subst hun
      rw [lookup_modifyM_self, hl] at hu'
      simp only [Option.map_some'] at hu'
      injection hu' with hu2
      rw [← hu2] at hrd
      have hrd' : lookupM d (ensureM defaultRoute d n.routes) = some rd := hrd
      rw [lookup_ensureM_self] at hrd'
      cases hrd'
      cases hrd0 : lookupM d n.routes with
      | none => simp [hrd0]
      | some rd0 => simpa [hrd0] using h u n hl rd0 hrd0
    · rw [lookup_modifyM_ne hun] at hu'
      exact h u m hu' rd hrd

theorem getRouteD_pure (nid d : Nat) (s : State) (h : Clean s d) :
    RoutePure d s (getRouteD nid d s).2 :=
  ⟨getRouteD_clean nid d s h, getRouteD_adj nid d s, getRouteD_links nid d s⟩

theorem setRoute_adj (nid d : Nat) (rd : RouteDesc) (s : State) (u : Nat) :
    adjData (setRoute nid d rd s) u = adjData s u := by
  unfold setRoute
  exact adjData_update_routes s nid
    (fun m => { m with routes := setM d rd m.routes }) (fun m => ⟨rfl, rfl⟩) u

theorem setRoute_clean (nid d : Nat) (s : State) (h : Clean s d) :
    Clean (setRoute nid d defaultRoute s) d := by
  intro u m hu rd hrd
  have hu' : lookupM u (modifyM nid
      (fun m => { m with routes := setM d defaultRoute m.routes }) s.nodes) = some m := hu
  by_cases hun : u = nid
  · subst hun
    rw [lookup_modifyM_self] at hu'
    cases hn : lookupM u s.nodes with
    | none => rw [hn] at hu'; cases hu'
    | some n =>
      rw [hn] at hu'
      simp only [Option.map_some'] at hu'
      injection hu' with hu2
      rw [← hu2] at hrd
      have hrd' : lookupM d (setM d defaultRoute n.routes) = some rd := hrd
      rw [lookup_setM_self] at hrd'
      cases hrd'
      rfl
  · rw [lookup_modifyM_ne hun] at hu'
    exact h u m hu' rd hrd

theorem setRoute_pure (nid d : Nat) (s : State) (h : Clean s d) :
    RoutePure d s (setRoute nid d defaultRoute s) :=
  ⟨setRoute_clean nid d s h, setRoute_adj nid d defaultRoute s, rfl⟩

theorem frLoop_unreachable
    (rec : List Nat → Nat → Nat → State → Int × List Nat × State)
    (hrec : ∀ (seen : List Nat) (d f : Nat) (s : State), Clean s d → ¬ Reach s f d →
      (rec seen d f s).1 = -1 ∧ RoutePure d s (rec seen d f s).2.2)
    (dst fromId myId : Nat) :
    ∀ (L : List Nat) (best : RouteDesc) (seen : List Nat) (s : State),
      Clean s dst → ¬ Reach s fromId dst →
      myId = (adjData s fromId).1 → (∀ lid ∈ L, lid ∈ (adjData s fromId).2) →
      (frLoop rec dst fromId myId L best seen s).1 = none ∧
      (frLoop rec dst fromId myId L best seen s).2.1 = best ∧
      RoutePure dst s (frLoop rec dst fromId myId L best seen s).2.2.2 := by
  intro L
  induction L with
  | nil =>
    intro best seen s hc hnr hmy hsub
    exact ⟨rfl, rfl, hc, fun _ => rfl, rfl⟩
  | cons lid rest ih =>
    intro best seen s hc hnr hmy hsub
    rw [frLoop]
    cases hl : lookupM lid s.links with
    | none =>
      exact ih best seen s hc hnr hmy (fun l' hm => hsub l' (List.mem_cons_of_mem _ hm))
    | some l =>
      simp only []
      by_cases hp : peerOf l.info myId = dst
      · exfalso
        apply hnr
        refine Relation.ReflTransGen.single ⟨lid, hsub lid (by simp), l, hl, ?_⟩
        rw [← hmy]
        exact hp
      · rw [if_neg hp]
        by_cases hs : peerOf l.info myId ∈ seen
        · rw [if_pos hs]
          exact ih best seen s hc hnr hmy (fun l' hm => hsub l' (List.mem_cons_of_mem _ hm))
        · rw [if_neg hs]
          rcases hg : getNodeD (peerOf l.info myId) s with ⟨n1, s1⟩
          have hpure1 : RoutePure dst s s1 := by
            have := getNodeD_pure (peerOf l.info myId) s dst hc
            rw [hg] at this
            exact this
          have hedge : Edge s fromId (peerOf l.info myId) := by
            refine ⟨lid, hsub lid (by simp), l, hl, ?_⟩
            rw [← hmy]
          have hnr1 : ¬ Reach s1 (peerOf l.info myId) dst := by
            rw [Reach_eq hpure1.2.1 hpure1.2.2]
            intro hr
            exact hnr (Relation.ReflTransGen.head hedge hr)
          rcases hr2 : rec (peerOf l.info myId :: seen) dst (peerOf l.info myId) s1
            with ⟨res, seen2, s2⟩
          have hrc := hrec (peerOf l.info myId :: seen) dst (peerOf l.info myId) s1 hpure1.1 hnr1
          rw [hr2] at hrc
          obtain ⟨hres, hpure2⟩ := hrc
          have hpure12 : RoutePure dst s s2 := routePure_trans hpure1 hpure2
          have hnr2 : ¬ Reach s2 fromId dst := by
            rw [Reach_eq hpure12.2.1 hpure12.2.2]
            exact hnr
          have hmy2 : myId = (adjData s2 fromId).1 := by
            rw [hpure12.2.1 fromId]
            exact hmy
          have hsub2 : ∀ l' ∈ rest, l' ∈ (adjData s2 fromId).2 := by
            intro l' hm
            rw [hpure12.2.1 fromId]
            exact hsub l' (List.mem_cons_of_mem _ hm)
          obtain ⟨ho, hbst, hpure3⟩ := ih best seen2 s2 hpure12.1 hnr2 hmy2 hsub2
          simp only [hg, hr2]
          rw [if_pos hres]
          exact ⟨ho, hbst, routePure_trans hpure12 hpure3⟩

theorem find_route_i_unreachable :
    ∀ (fuel : Nat) (seen : List Nat) (dst fromId : Nat) (s : State),
      Clean s dst → ¬ Reach s fromId dst →
      (find_route_i fuel seen dst fromId s).1 = -1 ∧
      RoutePure dst s (find_route_i fuel seen dst fromId s).2.2 := by
  intro fuel
  induction fuel with
  | zero =>
    intro seen dst fromId s hc hnr
    exact ⟨rfl, hc, fun _ => rfl, rfl⟩
  | succ fuel ih =>
    intro seen dst fromId s hc hnr
    rcases hg : getNodeD fromId s with ⟨n, s0⟩
    have hpure0 : RoutePure dst s s0 := by
      have := getNodeD_pure fromId s dst hc
      rw [hg] at this
      exact this
    rcases hrt : getRouteD fromId dst s0 with ⟨best0, s1⟩
    have hb0 : best0 = defaultRoute := by
      have := getRouteD_fst fromId dst s0 hpure0.1
      rw [hrt] at this
      exact this
    have hpure1 : RoutePure dst s0 s1 := by
      have := getRouteD_pure fromId dst s0 hpure0.1
      rw [hrt] at this
      exact this
    have hpure01 : RoutePure dst s s1 := routePure_trans hpure0 hpure1
    have hnr1 : ¬ Reach s1 fromId dst := by
      rw [Reach_eq hpure01.2.1 hpure01.2.2]
      exact hnr
    have hadj : (n.info.my_id, n.links) = adjData s fromId := by
      have := getNodeD_fst fromId s
      rw [hg] at this
      exact this
    have hmy : n.info.my_id = (adjData s1 fromId).1 := by
      rw [hpure01.2.1 fromId, ← hadj]
    have hsub : ∀ lid ∈ n.links, lid ∈ (adjData s1 fromId).2 := by
      intro lid hm
      rw [hpure01.2.1 fromId, ← hadj]
      exact hm
    obtain ⟨ho, hbst, hpure2⟩ :=
      frLoop_unreachable (find_route_i fuel) ih dst fromId n.info.my_id n.links best0 seen s1
        hpure01.1 hnr1 hmy hsub
    rcases hfl : frLoop (find_route_i fuel) dst fromId n.info.my_id n.links best0 seen s1
      with ⟨o, bst, seen2, s2⟩
    rw [hfl] at ho hbst hpure2
    simp only [] at ho hbst
    subst ho
    have hpath : best0.path = 0 := by rw [hb0]; rfl
    have hpath2 : ¬ best0.path ≠ 0 := fun hh => hh hpath
    have hpure12 : RoutePure dst s s2 := routePure_trans hpure01 hpure2
    constructor
    · simp only [find_route_i, hg, hrt, hfl]
      rw [if_neg hpath2]
      simp only []
      rw [hbst, hb0]
      rfl
    · simp only [find_route_i, hg, hrt, hfl]
      rw [if_neg hpath2]
      show RoutePure dst s (setRoute fromId dst bst s2)
      rw [hbst, hb0]
      exact routePure_trans hpure12 (setRoute_pure fromId dst s2 hpure12.1)

theorem lookupM_some_mem {κ : Type} [DecidableEq κ] {α : Type} {k : κ} {l : List (κ × α)} {v : α}
    (h : lookupM k l = some v) : ∃ e ∈ l, e.2 = v := by
  induction l with
  | nil => cases h
  | cons e t ih =>
    rw [lookupM_cons] at h
    by_cases he : e.1 = k
    · rw [if_pos he] at h
      injection h with h
      exact ⟨e, by simp, h⟩
    · rw [if_neg he] at h
      obtain ⟨e', he', hv⟩ := ih h
      exact ⟨e', by simp [he'], hv⟩

/-- C5 amended: `find_route` returns the −1 sentinel whenever either endpoint
is missing from the node table; and whenever, in addition to the two nodes
being unconnected by any sequence of links, every cached route entry toward
the destination is the unknown sentinel `(−1, 0)`.  (Without the clean-cache
condition a stale cached route is returned as-is — see the counterexample.) -/
theorem find_route_no_route (fuel fromId dst : Nat) (s : State) :
    ((lookupM dst s.nodes = none ∨ lookupM fromId s.nodes = none) →
      (find_route fuel fromId dst s).1 = -1) ∧
    (Clean s dst → ¬ Reach s fromId dst → (find_route fuel fromId dst s).1 = -1) := by
  constructor
  · intro habs
    rcases habs with h | h
    · simp [find_route, h]
    · by_cases h1 : (lookupM dst s.nodes).isNone
      · simp [find_route, h1]
      · simp [find_route, h1, h]
  · intro hc hnr
    by_cases h1 : (lookupM dst s.nodes).isNone
    · simp [find_route, h1]
    · by_cases h2 : (lookupM fromId s.nodes).isNone
      · simp [find_route, h1, h2]
      · have hne : ¬ dst = fromId := by
          intro hh
          subst hh
          exact hnr Relation.ReflTransGen.refl
        rcases hi : find_route_i fuel [fromId] dst fromId s with ⟨r, seen2, s2⟩
        have hr := (find_route_i_unreachable fuel [fromId] dst fromId s hc hnr).1
        rw [hi] at hr
        simp [find_route, h1, h2, hne, hi, hr]

/-- Witness for the amended C5: an absent destination, and a clean two-node
state with no links at all. -/
theorem find_route_no_route_witness :
    (find_route 10 1 3 lonelyState).1 = -1 ∧ (find_route 10 1 2 isolatedPairState).1 = -1 := by
  constructor
  · exact (find_route_no_route 10 1 3 lonelyState).1 (Or.inl rfl)
  · refine (find_route_no_route 10 1 2 isolatedPairState).2 ?_ ?_
    · intro u n hu rd hrd
      obtain ⟨e, he, hv⟩ := lookupM_some_mem hu
      have hroutes : n.routes = [] := by
        rw [← hv]
        have he' : e = (1, (⟨{ defaultNodeDesc with my_id := 1 }, [], []⟩ : TopoNode)) ∨
            e = (2, (⟨{ defaultNodeDesc with my_id := 2 }, [], []⟩ : TopoNode)) := by
          simpa [isolatedPairState, initState] using he
        rcases he' with h | h <;> rw [h]
      rw [hroutes] at hrd
      cases hrd
    · intro h
      have h12 := reach_eq_of_no_edge (no_edge_of_links_nil rfl) h
      exact absurd h12 (by decide)

end Topology
